import Mathlib

/-!
A shallow embedding of the change-detection and classification pipeline of the
document tracker backend (src/app/services/differ.py,
src/app/services/classifier.py, src/app/models).  Python strings are modelled
as Lean `String` / `List Char`, the float similarity ratios produced by
difflib as exact rationals, python dicts keyed by change ids as total
functions into `Option`, and the external reasoning service as an explicit
outcome parameter.  All definitions are translated from the source; the few
spots where the embedding has to approximate (ASCII case folding, the fixed
`isjunk=None` argument of `SequenceMatcher`) are noted where they occur.
-/

namespace DocTracker

/-- `ImpactLevel` enum (app/models/enums.py). -/
inductive ImpactLevel where
  | critical
  | medium
  | low
  deriving DecidableEq, Repr

/-- `ChangeType` enum (app/models/enums.py). -/
inductive ChangeType where
  | added
  | deleted
  | modified
  deriving DecidableEq, Repr

/-- `WordChange` dataclass (app/models/schemas.py). -/
structure WordChange where
  change_type : String
  old_text : String
  new_text : String
  context : String
  deriving DecidableEq, Repr

/-- `ContentBlock` dataclass (app/models/schemas.py). -/
structure ContentBlock where
  index : Nat
  block_type : String
  content : String
  deriving DecidableEq, Repr, Inhabited

/-- `Change` dataclass (app/models/schemas.py).  `similarity` is a difflib
ratio, modelled as an exact rational. -/
structure Change where
  change_id : Nat
  change_type : ChangeType
  block_type : String
  location : String
  original : Option String
  modified : Option String
  similarity : Option ℚ
  diff_text : Option String
  word_changes : Option (List WordChange)
  deriving DecidableEq, Repr

/-- `ClassifiedChange` dataclass (app/models/schemas.py). -/
structure ClassifiedChange where
  change_id : Nat
  change_type : ChangeType
  block_type : String
  location : String
  original : Option String
  modified : Option String
  similarity : Option ℚ
  diff_text : Option String
  word_changes : Option (List WordChange)
  impact : ImpactLevel
  reasoning : String
  risk_analysis : String
  classification_source : String
  deriving DecidableEq, Repr

/-- `ClassificationResult` dataclass (app/services/classifier.py). -/
structure ClassificationResult where
  classified_changes : List ClassifiedChange
  llm_time_ms : Nat
  llm_calls : Nat
  deriving DecidableEq, Repr

/-!
## difflib.SequenceMatcher

The differ calls `SequenceMatcher(None, a, b)` (always with `isjunk=None`) on
lists of block contents, on lists of words and on pairs of strings, so the
matcher is embedded generically over an element type.  With `isjunk=None` the
junk set `bjunk` is always empty, hence the two junk-extension loops of
`find_longest_match` never fire and are omitted; the `autojunk` purge of
popular elements (sequences of length >= 200) is embedded faithfully.
-/

section Difflib

variable {α : Type} [DecidableEq α] [Inhabited α]

/-- The ascending list of indices of `b` holding element `x`.  This is exactly
the value `b2j[x]` built by `SequenceMatcher.__chain_b` via
`b2j.setdefault(elt, []).append(i)` in index order. -/
def positions (b : List α) (x : α) : List Nat :=
  (List.range b.length).filter (fun i => decide (b.getD i default = x))

/-- The `autojunk` popularity test of `__chain_b`: in sequences of at least
200 elements, elements occurring more than `n // 100 + 1` times are purged
from `b2j`. -/
def isPopular (b : List α) (x : α) : Bool :=
  decide (200 ≤ b.length) && decide (b.length / 100 + 1 < (positions b x).length)

/-- `b2j.get(x, [])` after `__chain_b`: positions of `x` in `b`, or `[]` when
`x` was purged as popular (there is no junk because `isjunk` is `None`). -/
def b2jGet (b : List α) (x : α) : List Nat :=
  if isPopular b x then [] else positions b x

/-- `k = j2len.get(j-1, 0) + 1` of the `find_longest_match` inner loop,
reading the previous row; guarded for `j = 0` because python would look up
the absent key `-1`. -/
def flmK (j : Nat) (j2 : Nat → Nat) : Nat :=
  (if j = 0 then 0 else j2 (j - 1)) + 1

/-- `newj2len[j] = k` (dicts are modelled as total functions with default
value 0). -/
def flmSet (j k : Nat) (f : Nat → Nat) : Nat → Nat :=
  fun x => if x = j then k else f x

/-- The conditional best-match update
`if k > bestsize: besti, bestj, bestsize = i-k+1, j-k+1, k`. -/
def flmUpd (i j k : Nat) (best : Nat × Nat × Nat) : Nat × Nat × Nat :=
  if best.2.2 < k then (i + 1 - k, j + 1 - k, k) else best

/-- One row of the `find_longest_match` main loop: iterate
`for j in b2j.get(a[i], nothing)` with the `j < blo` continue and the
`j >= bhi` break. -/
def flmInner (blo bhi i : Nat) : List Nat → Nat × Nat × Nat → (Nat → Nat) → (Nat → Nat) →
    (Nat × Nat × Nat) × (Nat → Nat)
  | [], best, _, nj2 => (best, nj2)
  | j :: js, best, j2, nj2 =>
    if j < blo then flmInner blo bhi i js best j2 nj2
    else if bhi ≤ j then (best, nj2)
    else flmInner blo bhi i js (flmUpd i j (flmK j j2) best) j2 (flmSet j (flmK j j2) nj2)

/-- The outer `for i in range(alo, ahi)` loop of `find_longest_match`,
threading `j2len = newj2len` between rows. -/
def flmRows (a b : List α) (blo bhi : Nat) : List Nat → Nat × Nat × Nat → (Nat → Nat) →
    Nat × Nat × Nat
  | [], best, _ => best
  | i :: rows, best, j2 =>
    flmRows a b blo bhi rows
      (flmInner blo bhi i (b2jGet b (a.getD i default)) best j2 (fun _ => 0)).1
      (flmInner blo bhi i (b2jGet b (a.getD i default)) best j2 (fun _ => 0)).2

/-- The first (backward) non-junk extension loop of `find_longest_match`
(`bjunk` is empty, so `not isbjunk(...)` is always true).  The loop
decrements `besti` while `besti > alo`, so it is structural recursion on
`besti`; when `besti = 0` the condition is false and the loop exits, exactly
as in the unfolded case. -/
def extendBack (a b : List α) (alo blo : Nat) : Nat → Nat → Nat → Nat × Nat × Nat
  | 0, bestj, bestsize => (0, bestj, bestsize)
  | besti + 1, bestj, bestsize =>
    if alo < besti + 1 ∧ blo < bestj ∧ a.getD besti default = b.getD (bestj - 1) default then
      extendBack a b alo blo besti (bestj - 1) (bestsize + 1)
    else (besti + 1, bestj, bestsize)

/-- Body of the second (forward) non-junk extension loop, with the number of
remaining iterations as structural fuel. -/
def extendFwdLenAux (a b : List α) (ahi bhi besti bestj : Nat) : Nat → Nat → Nat
  | 0, bestsize => bestsize
  | fuel + 1, bestsize =>
    if besti + bestsize < ahi ∧ bestj + bestsize < bhi ∧
        a.getD (besti + bestsize) default = b.getD (bestj + bestsize) default then
      extendFwdLenAux a b ahi bhi besti bestj fuel (bestsize + 1)
    else bestsize

/-- The second (forward) non-junk extension loop of `find_longest_match`,
returning the extended size.  The loop increments `bestsize` while
`besti + bestsize < ahi`, so it runs at most `ahi - (besti + bestsize)`
times; that bound is the fuel, and when the fuel is 0 the loop condition is
already false, so loop and fuel recursion agree. -/
def extendFwdLen (a b : List α) (ahi bhi besti bestj bestsize : Nat) : Nat :=
  extendFwdLenAux a b ahi bhi besti bestj (ahi - (besti + bestsize)) bestsize

/-- The two extension loops applied to the main-loop result. -/
def flmExtend (a b : List α) (alo ahi blo bhi : Nat) (m : Nat × Nat × Nat) : Nat × Nat × Nat :=
  ((extendBack a b alo blo m.1 m.2.1 m.2.2).1,
   (extendBack a b alo blo m.1 m.2.1 m.2.2).2.1,
   extendFwdLen a b ahi bhi (extendBack a b alo blo m.1 m.2.1 m.2.2).1
     (extendBack a b alo blo m.1 m.2.1 m.2.2).2.1
     (extendBack a b alo blo m.1 m.2.1 m.2.2).2.2)

/-- `SequenceMatcher.find_longest_match(alo, ahi, blo, bhi)` with
`isjunk=None`: main loop, then the two non-junk extension loops (the two junk
extension loops never fire because `bjunk` is empty). -/
def find_longest_match (a b : List α) (alo ahi blo bhi : Nat) : Nat × Nat × Nat :=
  flmExtend a b alo ahi blo bhi
    (flmRows a b blo bhi (List.range' alo (ahi - alo)) (alo, blo, 0) (fun _ => 0))

/-- Range-validity invariant of a candidate match: it is either the initial
`(alo, blo, 0)` or lies inside the queried window. -/
def InvB (alo ahi blo bhi : Nat) (best : Nat × Nat × Nat) : Prop :=
  best = (alo, blo, 0) ∨
    (alo ≤ best.1 ∧ best.1 + best.2.2 ≤ ahi ∧ blo ≤ best.2.1 ∧ best.2.1 + best.2.2 ≤ bhi)

theorem flmInner_inv (alo blo bhi i : Nat) (ahi : Nat) (hi1 : alo ≤ i) (hi2 : i < ahi) :
    ∀ (js : List Nat) (best : Nat × Nat × Nat) (j2 nj2 : Nat → Nat),
    InvB alo ahi blo bhi best →
    (∀ x, j2 x ≤ i - alo ∧ j2 x ≤ x + 1 - blo) →
    (∀ x, nj2 x ≤ i - alo + 1 ∧ nj2 x ≤ x + 1 - blo) →
    InvB alo ahi blo bhi (flmInner blo bhi i js best j2 nj2).1 ∧
    (∀ x, (flmInner blo bhi i js best j2 nj2).2 x ≤ i - alo + 1 ∧
      (flmInner blo bhi i js best j2 nj2).2 x ≤ x + 1 - blo) := by
  intro js
  induction js with
  | nil => intro best j2 nj2 hb hj2 hnj2; exact ⟨hb, hnj2⟩
  | cons j js ih =>
    intro best j2 nj2 hb hj2 hnj2
    by_cases hjlo : j < blo
    · simpa [flmInner, hjlo] using ih best j2 nj2 hb hj2 hnj2
    · by_cases hjhi : bhi ≤ j
      · simpa [flmInner, hjlo, hjhi] using ⟨hb, hnj2⟩
      · have hk1 : flmK j j2 ≤ i - alo + 1 := by
          unfold flmK
          split
          · omega
          · have := (hj2 (j - 1)).1; omega
        have hk2 : flmK j j2 ≤ j + 1 - blo := by
          unfold flmK
          split
          · omega
          · have := (hj2 (j - 1)).2; omega
        have hbest' : InvB alo ahi blo bhi (flmUpd i j (flmK j j2) best) := by
          unfold flmUpd
          split
          · right
            dsimp only
            omega
          · exact hb
        have hnj2' : ∀ x, (flmSet j (flmK j j2) nj2) x ≤ i - alo + 1 ∧
            (flmSet j (flmK j j2) nj2) x ≤ x + 1 - blo := by
          intro x
          unfold flmSet
          by_cases hx : x = j
          · subst hx
            simp only [if_pos rfl]
            exact ⟨hk1, hk2⟩
          · simp only [if_neg hx]
            exact hnj2 x
        simpa [flmInner, hjlo, hjhi] using
          ih (flmUpd i j (flmK j j2) best) j2 _ hbest' hj2 hnj2'

theorem flmRows_inv (a b : List α) (alo blo bhi ahi : Nat) :
    ∀ (cnt i : Nat), alo ≤ i → i + cnt = ahi →
    ∀ (best : Nat × Nat × Nat) (j2 : Nat → Nat),
    InvB alo ahi blo bhi best →
    (∀ x, j2 x ≤ i - alo ∧ j2 x ≤ x + 1 - blo) →
    InvB alo ahi blo bhi (flmRows a b blo bhi (List.range' i cnt) best j2) := by
  intro cnt
  induction cnt with
  | zero => intro i _ _ best j2 hb _; simpa [flmRows] using hb
  | succ m ih =>
    intro i hi hcnt best j2 hb hj2
    rw [List.range'_succ]
    have hi2 : i < ahi := by omega
    have h := flmInner_inv alo blo bhi i ahi hi hi2 (b2jGet b (a.getD i default))
      best j2 (fun _ => 0) hb hj2 (fun x => ⟨Nat.zero_le _, Nat.zero_le _⟩)
    simp only [flmRows]
    exact ih (i + 1) (by omega) (by omega) _ _ h.1 (by intro x; have := (h.2 x); omega)

theorem extendBack_inv (a b : List α) (alo ahi blo bhi : Nat) :
    ∀ (besti bestj bestsize : Nat), InvB alo ahi blo bhi (besti, bestj, bestsize) →
    InvB alo ahi blo bhi (extendBack a b alo blo besti bestj bestsize) := by
  intro besti
  induction besti with
  | zero => intro bestj bestsize hb; simpa [extendBack] using hb
  | succ k ih =>
    intro bestj bestsize hb
    rw [extendBack]
    split
    · rename_i h
      obtain ⟨h1, h2, _⟩ := h
      rcases hb with hb | hb
      · exfalso
        have he : k + 1 = alo := congrArg Prod.fst hb
        omega
      · apply ih
        right
        dsimp only at hb ⊢
        omega
    · exact hb

theorem extendFwdLenAux_spec (a b : List α) (ahi bhi besti bestj : Nat) :
    ∀ (fuel bestsize : Nat),
    bestsize ≤ extendFwdLenAux a b ahi bhi besti bestj fuel bestsize ∧
    (extendFwdLenAux a b ahi bhi besti bestj fuel bestsize = bestsize ∨
      (besti + extendFwdLenAux a b ahi bhi besti bestj fuel bestsize ≤ ahi ∧
       bestj + extendFwdLenAux a b ahi bhi besti bestj fuel bestsize ≤ bhi)) := by
  intro fuel
  induction fuel with
  | zero => intro bestsize; exact ⟨le_rfl, Or.inl rfl⟩
  | succ m ih =>
    intro bestsize
    rw [extendFwdLenAux]
    split
    · rename_i hcond
      obtain ⟨hc1, hc2, _⟩ := hcond
      obtain ⟨h1, h2 | h2⟩ := ih (bestsize + 1)
      · exact ⟨by omega, Or.inr (by omega)⟩
      · exact ⟨by omega, Or.inr h2⟩
    · exact ⟨le_rfl, Or.inl rfl⟩

theorem extendFwdLen_spec (a b : List α) (ahi bhi besti bestj bestsize : Nat) :
    bestsize ≤ extendFwdLen a b ahi bhi besti bestj bestsize ∧
    (extendFwdLen a b ahi bhi besti bestj bestsize = bestsize ∨
      (besti + extendFwdLen a b ahi bhi besti bestj bestsize ≤ ahi ∧
       bestj + extendFwdLen a b ahi bhi besti bestj bestsize ≤ bhi)) :=
  extendFwdLenAux_spec a b ahi bhi besti bestj _ bestsize

/-- The result of `find_longest_match`, when nonempty, lies inside the
queried window.  (Needed for termination of the matching-blocks recursion.) -/
theorem flm_bounds (a b : List α) (alo ahi blo bhi : Nat)
    (hk : (find_longest_match a b alo ahi blo bhi).2.2 ≠ 0) :
    alo ≤ (find_longest_match a b alo ahi blo bhi).1 ∧
    (find_longest_match a b alo ahi blo bhi).1 + (find_longest_match a b alo ahi blo bhi).2.2 ≤ ahi ∧
    blo ≤ (find_longest_match a b alo ahi blo bhi).2.1 ∧
    (find_longest_match a b alo ahi blo bhi).2.1 + (find_longest_match a b alo ahi blo bhi).2.2 ≤ bhi := by
  have hm : InvB alo ahi blo bhi
      (flmRows a b blo bhi (List.range' alo (ahi - alo)) (alo, blo, 0) (fun _ => 0)) := by
    rcases le_or_lt alo ahi with hle | hlt
    · exact flmRows_inv a b alo blo bhi ahi (ahi - alo) alo le_rfl (by omega) _ _
        (Or.inl rfl) (by intro x; exact ⟨Nat.zero_le _, Nat.zero_le _⟩)
    · have h0 : ahi - alo = 0 := by omega
      rw [h0, List.range'_zero]
      exact Or.inl rfl
  set m := flmRows a b blo bhi (List.range' alo (ahi - alo)) (alo, blo, 0) (fun _ => 0) with hmdef
  have hm2 : InvB alo ahi blo bhi (extendBack a b alo blo m.1 m.2.1 m.2.2) := by
    apply extendBack_inv a b alo ahi blo bhi m.1 m.2.1 m.2.2
    simpa using hm
  set m2 := extendBack a b alo blo m.1 m.2.1 m.2.2 with hm2def
  have hf := extendFwdLen_spec a b ahi bhi m2.1 m2.2.1 m2.2.2
  have hfe : find_longest_match a b alo ahi blo bhi =
      (m2.1, m2.2.1, extendFwdLen a b ahi bhi m2.1 m2.2.1 m2.2.2) := by
    simp only [find_longest_match, flmExtend, ← hmdef, ← hm2def]
  rw [hfe] at hk ⊢
  dsimp only at hk ⊢
  rcases hm2 with hb | hb
  · have h1 : m2.1 = alo := congrArg Prod.fst hb
    have h2 : m2.2.1 = blo := congrArg (fun p => p.2.1) hb
    have h3 : m2.2.2 = 0 := congrArg (fun p => p.2.2) hb
    rw [h1, h2, h3] at hf hk ⊢
    rcases hf with ⟨hf1, hf2 | hf2⟩
    · exact absurd hf2 hk
    · omega
  · rcases hf with ⟨hf1, hf2 | hf2⟩
    · exact ⟨hb.1, by omega, hb.2.2.1, by omega⟩
    · exact ⟨hb.1, hf2.1, hb.2.2.1, hf2.2⟩

/-- The size measure of a queued `(alo, ahi, blo, bhi)` window. -/
def qsize (q : Nat × Nat × Nat × Nat) : Nat := (q.2.1 - q.1) + (q.2.2.2 - q.2.2.1) + 1

/-- The queue loop of `SequenceMatcher.get_matching_blocks`.  Python pops from
the end of `queue` and pushes `(alo, i, blo, j)` then `(i+k, ahi, j+k, bhi)`;
here the head of the list is the next element to pop, so the two pushes are
prepended in reverse order.  Matches are collected in pop order. -/
def gmbQueueAux (a b : List α) : Nat → List (Nat × Nat × Nat × Nat) → List (Nat × Nat × Nat)
  | 0, _ => []
  | _ + 1, [] => []
  | fuel + 1, (alo, ahi, blo, bhi) :: rest =>
    match find_longest_match a b alo ahi blo bhi with
    | (i, j, k) =>
      if k = 0 then gmbQueueAux a b fuel rest
      else
        (i, j, k) ::
          gmbQueueAux a b fuel
            ((if i + k < ahi ∧ j + k < bhi then [(i + k, ahi, j + k, bhi)] else []) ++
             (if alo < i ∧ blo < j then [(alo, i, blo, j)] else []) ++ rest)

/-- The queue loop terminates because each iteration pops one window (whose
`qsize` is at least 1) and, by `flm_bounds`, pushes windows of a strictly
smaller combined `qsize`, so the total measure strictly decreases; the fuel
`measure + 1` therefore strictly bounds the number of iterations, and the
fuel recursion computes exactly the python loop. -/
def gmbQueue (a b : List α) (queue : List (Nat × Nat × Nat × Nat)) : List (Nat × Nat × Nat) :=
  gmbQueueAux a b ((queue.map qsize).sum + 1) queue

/-- Lexicographic comparison used to model `matching_blocks.sort()` on
triples. -/
def tripleLe (x y : Nat × Nat × Nat) : Bool :=
  decide (x.1 < y.1 ∨ (x.1 = y.1 ∧ (x.2.1 < y.2.1 ∨ (x.2.1 = y.2.1 ∧ x.2.2 ≤ y.2.2))))

/-- Sorted insertion for `lexSort`. -/
def lexInsert (x : Nat × Nat × Nat) : List (Nat × Nat × Nat) → List (Nat × Nat × Nat)
  | [] => [x]
  | y :: ys => if tripleLe x y then x :: y :: ys else y :: lexInsert x ys

/-- `matching_blocks.sort()`: the triples are sorted by their (total)
lexicographic order, under which every comparison sort produces the same
list; insertion sort is used because it reduces in the kernel. -/
def lexSort : List (Nat × Nat × Nat) → List (Nat × Nat × Nat)
  | [] => []
  | x :: xs => lexInsert x (lexSort xs)

/-- The adjacent-merge pass of `get_matching_blocks` (state `i1, j1, k1`
starting from `(0, 0, 0)`, emitting a block whenever a non-adjacent one is
met and `k1` is nonzero). -/
def mergeAdj : Nat → Nat → Nat → List (Nat × Nat × Nat) → List (Nat × Nat × Nat)
  | i1, j1, k1, [] => if k1 = 0 then [] else [(i1, j1, k1)]
  | i1, j1, k1, (i2, j2, k2) :: rest =>
    if i1 + k1 = i2 ∧ j1 + k1 = j2 then mergeAdj i1 j1 (k1 + k2) rest
    else if k1 = 0 then mergeAdj i2 j2 k2 rest
    else (i1, j1, k1) :: mergeAdj i2 j2 k2 rest

/-- `SequenceMatcher.get_matching_blocks()`: queue recursion, sort, adjacent
merge, terminating sentinel `(len(a), len(b), 0)`. -/
def get_matching_blocks (a b : List α) : List (Nat × Nat × Nat) :=
  mergeAdj 0 0 0 (lexSort (gmbQueue a b [(0, a.length, 0, b.length)])) ++
    [(a.length, b.length, 0)]

/-- difflib opcode tags. -/
inductive Tag where
  | equal
  | delete
  | insert
  | replace
  deriving DecidableEq, Repr

/-- The loop of `SequenceMatcher.get_opcodes()` over matching blocks,
carrying the cursor `(i, j)`. -/
def opcodesAux : Nat → Nat → List (Nat × Nat × Nat) → List (Tag × Nat × Nat × Nat × Nat)
  | _, _, [] => []
  | i, j, (ai, bj, size) :: rest =>
    (if i < ai ∧ j < bj then [(Tag.replace, i, ai, j, bj)]
     else if i < ai then [(Tag.delete, i, ai, j, bj)]
     else if j < bj then [(Tag.insert, i, ai, j, bj)]
     else []) ++
    (if size = 0 then [] else [(Tag.equal, ai, ai + size, bj, bj + size)]) ++
    opcodesAux (ai + size) (bj + size) rest

/-- `SequenceMatcher.get_opcodes()`. -/
def get_opcodes (a b : List α) : List (Tag × Nat × Nat × Nat × Nat) :=
  opcodesAux 0 0 (get_matching_blocks a b)

/-- `SequenceMatcher.ratio()`: `2 * M / T` where `M` is the total size of the
matching blocks and `T` the combined length, and 1 when both sequences are
empty (`_calculate_ratio`). -/
def smRatio (a b : List α) : ℚ :=
  if a.length + b.length = 0 then 1
  else 2 * ((((get_matching_blocks a b).map (fun t => t.2.2)).sum : Nat) : ℚ) /
    ((a.length : ℚ) + (b.length : ℚ))

end Difflib

/-!
## WordDiffer (`get_word_level_diff`, differ.py)
-/

/-- Python `str.split()` (no argument): split on whitespace, dropping empty
pieces. -/
def pySplit (s : String) : List String :=
  (s.split (fun c => c.isWhitespace)).filter (fun w => !w.isEmpty)

/-- Python slice `l[lo:hi]` (for the 0 ≤ lo ≤ hi uses in the source;
`max(0, i1-2)` is absorbed by truncated subtraction at the call sites). -/
def pySlice (l : List α) (lo hi : Nat) : List α := (l.take hi).drop lo

/-- `' '.join(ws)`. -/
def joinWords (ws : List String) : String := String.intercalate " " ws

/-- One opcode step of `get_word_level_diff`, accumulating `diff_parts` and
`word_changes`. -/
def wordDiffStep (orig_words mod_words : List String)
    (acc : List String × List WordChange) (op : Tag × Nat × Nat × Nat × Nat) :
    List String × List WordChange :=
  match op with
  | (Tag.equal, i1, i2, _, _) => (acc.1 ++ pySlice orig_words i1 i2, acc.2)
  | (Tag.delete, i1, i2, _, _) =>
    (acc.1 ++ ["[-" ++ joinWords (pySlice orig_words i1 i2) ++ "-]"],
     acc.2 ++ [⟨"deleted", joinWords (pySlice orig_words i1 i2), "",
       (joinWords (pySlice orig_words (i1 - 2) i1) ++ " [DELETED] " ++
        joinWords (pySlice orig_words i2 (i2 + 2))).trim⟩])
  | (Tag.insert, _, _, j1, j2) =>
    (acc.1 ++ ["[+" ++ joinWords (pySlice mod_words j1 j2) ++ "+]"],
     acc.2 ++ [⟨"added", "", joinWords (pySlice mod_words j1 j2),
       (joinWords (pySlice mod_words (j1 - 2) j1) ++ " [ADDED] " ++
        joinWords (pySlice mod_words j2 (j2 + 2))).trim⟩])
  | (Tag.replace, i1, i2, j1, j2) =>
    (acc.1 ++ ["[-" ++ joinWords (pySlice orig_words i1 i2) ++ "-]",
       "[+" ++ joinWords (pySlice mod_words j1 j2) ++ "+]"],
     acc.2 ++ [⟨"replaced", joinWords (pySlice orig_words i1 i2),
       joinWords (pySlice mod_words j1 j2),
       (joinWords (pySlice orig_words (i1 - 2) i1) ++ " [REPLACED] " ++
        joinWords (pySlice orig_words i2 (i2 + 2))).trim⟩])

/-- `get_word_level_diff(original, modified)` (differ.py): whitespace
tokenization, SequenceMatcher opcodes over the word lists, bracketed diff
text plus one `WordChange` per non-equal run. -/
def get_word_level_diff (original modified : String) : String × List WordChange :=
  ((get_opcodes (pySplit original) (pySplit modified)).foldl
    (wordDiffStep (pySplit original) (pySplit modified)) ([], [])).map joinWords id

/-!
## BlockAligner (`diff_documents` / `_match_similar_blocks`, differ.py)
-/

/-- One entry of the `_match_similar_blocks` result list (python builds dicts
with keys `type`, `v1`, `v2`, `similarity`, `diff_text`, `word_changes`;
components that are `None` in a given dict shape are captured by the
constructor). -/
inductive MatchItem where
  | modified (v1 v2 : ContentBlock) (similarity : ℚ) (diff_text : String)
      (word_changes : List WordChange)
  | deleted (v1 : ContentBlock) (diff_text : String) (word_changes : List WordChange)
  | added (v2 : ContentBlock) (diff_text : String) (word_changes : List WordChange)
  deriving DecidableEq, Repr

/-- The inner candidate scan of `_match_similar_blocks`:
`for idx, b2 in enumerate(v2_blocks)`, skipping consumed indices, keeping the
first candidate of highest similarity (strict `>` update from
`best_match = None, best_sim = 0`). -/
def bestCand (used : List Nat) (v2_blocks : List ContentBlock) (c1 : String) :
    Option (Nat × ContentBlock) × ℚ :=
  v2_blocks.enum.foldl
    (fun st p =>
      if p.1 ∈ used then st
      else if st.2 < smRatio c1.data p.2.content.data then
        (some p, smRatio c1.data p.2.content.data)
      else st)
    (none, 0)

/-- The deleted-dict built for an unmatched v1 block. -/
def delItem (b1 : ContentBlock) : MatchItem :=
  MatchItem.deleted b1 ("[-" ++ b1.content ++ "-]")
    [⟨"deleted", b1.content, "", "Entire block deleted"⟩]

/-- The added-dict built for an unconsumed v2 block. -/
def addItem (b2 : ContentBlock) : MatchItem :=
  MatchItem.added b2 ("[+" ++ b2.content ++ "+]")
    [⟨"added", "", b2.content, "Entire block added"⟩]

/-- Body of the `for b1 in v1_blocks` loop of `_match_similar_blocks`.  The
threshold is 0.5, the function's default and the only value the differ ever
passes; the `used_v2` set is modelled as a list queried only for
membership. -/
def msbStep (v2_blocks : List ContentBlock) (st : List MatchItem × List Nat)
    (b1 : ContentBlock) : List MatchItem × List Nat :=
  match bestCand st.2 v2_blocks b1.content with
  | (some (idx, b2), bs) =>
    if (1 : ℚ)/2 ≤ bs then
      (st.1 ++ [MatchItem.modified b1 b2 bs (get_word_level_diff b1.content b2.content).1
          (get_word_level_diff b1.content b2.content).2], idx :: st.2)
    else (st.1 ++ [delItem b1], st.2)
  | (none, _) => (st.1 ++ [delItem b1], st.2)

/-- `_match_similar_blocks(v1_blocks, v2_blocks)` (differ.py): greedy per-v1
matching, then every still-unconsumed v2 block becomes an addition. -/
def match_similar_blocks (v1_blocks v2_blocks : List ContentBlock) : List MatchItem :=
  (v1_blocks.foldl (msbStep v2_blocks) ([], [])).1 ++
    v2_blocks.enum.filterMap
      (fun p =>
        if p.1 ∈ (v1_blocks.foldl (msbStep v2_blocks) ([], [])).2 then none
        else some (addItem p.2))

/-- Conversion of one `_match_similar_blocks` entry into the `Change`
appended by the replace branch of `diff_documents`, with change id `cid`. -/
def itemToChange (cid : Nat) : MatchItem → Change
  | MatchItem.modified v1 v2 s dt wcs =>
    { change_id := cid, change_type := ChangeType.modified, block_type := v1.block_type,
      location := "Block " ++ toString (v1.index + 1), original := some v1.content,
      modified := some v2.content, similarity := some s, diff_text := some dt,
      word_changes := some wcs }
  | MatchItem.deleted v1 dt wcs =>
    { change_id := cid, change_type := ChangeType.deleted, block_type := v1.block_type,
      location := "Block " ++ toString (v1.index + 1), original := some v1.content,
      modified := none, similarity := none, diff_text := some dt,
      word_changes := some wcs }
  | MatchItem.added v2 dt wcs =>
    { change_id := cid, change_type := ChangeType.added, block_type := v2.block_type,
      location := "Block " ++ toString (v2.index + 1), original := none,
      modified := some v2.content, similarity := none, diff_text := some dt,
      word_changes := some wcs }

/-- The `Change` built by the delete branch of `diff_documents` for block
index `i` of v1. -/
def deleteChange (blocks_v1 : List ContentBlock) (cid i : Nat) : Change :=
  { change_id := cid, change_type := ChangeType.deleted,
    block_type := (blocks_v1.getD i default).block_type,
    location := "Block " ++ toString ((blocks_v1.getD i default).index + 1),
    original := some (blocks_v1.getD i default).content, modified := none,
    similarity := none,
    diff_text := some ("[-" ++ (blocks_v1.getD i default).content ++ "-]"),
    word_changes := some [⟨"deleted", (blocks_v1.getD i default).content, "",
      "Entire block deleted"⟩] }

/-- The `Change` built by the insert branch of `diff_documents` for block
index `j` of v2. -/
def insertChange (blocks_v2 : List ContentBlock) (cid j : Nat) : Change :=
  { change_id := cid, change_type := ChangeType.added,
    block_type := (blocks_v2.getD j default).block_type,
    location := "Block " ++ toString ((blocks_v2.getD j default).index + 1),
    original := none, modified := some (blocks_v2.getD j default).content,
    similarity := none,
    diff_text := some ("[+" ++ (blocks_v2.getD j default).content ++ "+]"),
    word_changes := some [⟨"added", "", (blocks_v2.getD j default).content,
      "Entire block added"⟩] }

/-- The changes emitted by `diff_documents` for one opcode, with ids assigned
consecutively from `cid` (python increments `change_id` after each append). -/
def opChanges (blocks_v1 blocks_v2 : List ContentBlock) (cid : Nat)
    (op : Tag × Nat × Nat × Nat × Nat) : List Change :=
  match op with
  | (Tag.equal, _, _, _, _) => []
  | (Tag.delete, i1, i2, _, _) =>
    List.zipWith (deleteChange blocks_v1) (List.range' cid (i2 - i1)) (List.range' i1 (i2 - i1))
  | (Tag.insert, _, _, j1, j2) =>
    List.zipWith (insertChange blocks_v2) (List.range' cid (j2 - j1)) (List.range' j1 (j2 - j1))
  | (Tag.replace, i1, i2, j1, j2) =>
    List.zipWith itemToChange
      (List.range' cid (match_similar_blocks
        ((List.range' i1 (i2 - i1)).map (fun i => blocks_v1.getD i default))
        ((List.range' j1 (j2 - j1)).map (fun j => blocks_v2.getD j default))).length)
      (match_similar_blocks
        ((List.range' i1 (i2 - i1)).map (fun i => blocks_v1.getD i default))
        ((List.range' j1 (j2 - j1)).map (fun j => blocks_v2.getD j default)))

/-- The opcode loop of `diff_documents`, threading the running change id. -/
def diffGo (blocks_v1 blocks_v2 : List ContentBlock) :
    List (Tag × Nat × Nat × Nat × Nat) → Nat → List Change
  | [], _ => []
  | op :: ops, cid =>
    opChanges blocks_v1 blocks_v2 cid op ++
      diffGo blocks_v1 blocks_v2 ops (cid + (opChanges blocks_v1 blocks_v2 cid op).length)

/-- `diff_documents(blocks_v1, blocks_v2)` (differ.py): align the block
content lists with SequenceMatcher and emit changes per opcode with
sequential 1-based ids (`equal` runs are skipped). -/
def diff_documents (blocks_v1 blocks_v2 : List ContentBlock) : List Change :=
  diffGo blocks_v1 blocks_v2
    (get_opcodes (blocks_v1.map (fun bl => bl.content))
      (blocks_v2.map (fun bl => bl.content))) 1

/-!
## RuleClassifier (classifier.py)

The six `CRITICAL_PATTERNS` regexes are embedded as hand-rolled matchers over
`List Char`.  Each anchored matcher is backtracking-free or enumerates the
bounded choices of the regex exhaustively, so it decides exactly the
existence of a match at that position; `re.search` existence is the
disjunction over all start positions.  Character classes are ASCII
(`\d`, `\s` as in python for this system's inputs); `\w` additionally treats
every non-ASCII codepoint as a word character, which agrees with python on
the Vietnamese letters occurring here.
-/

/-- The `\d` class (ASCII). -/
def isDigitC (c : Char) : Bool := c.isDigit

/-- The `\s` class. -/
def isWsC (c : Char) : Bool := c.isWhitespace

/-- The `\w` class: ASCII alphanumerics, underscore, and all non-ASCII
codepoints (see section comment). -/
def isWordC (c : Char) : Bool := c.isAlphanum || c == '_' || decide (128 ≤ c.toNat)

/-- The `[.,]` separator class. -/
def isSepC (c : Char) : Bool := c == '.' || c == ','

/-- The `[\d.,]` class of the VND patterns. -/
def isNumPunct (c : Char) : Bool := isDigitC c || isSepC c

/-- Anchored matcher for `\d+[.,]?\d*\s*%`: greedy consumption is
backtracking-free here because each consumed class is disjoint from the one
that may follow it. -/
def pctAt (cs : List Char) : Bool :=
  !(cs.takeWhile isDigitC).isEmpty &&
    (match (match cs.dropWhile isDigitC with
            | c :: t => if isSepC c then t else cs.dropWhile isDigitC
            | [] => []).dropWhile isDigitC |>.dropWhile isWsC with
     | '%' :: _ => true
     | _ => false)

/-- `re.search(r'\d+[.,]?\d*\s*%', text)` as a boolean. -/
def pctSearch (cs : List Char) : Bool := cs.tails.any pctAt

/-- Anchored matcher for `\$\s*[\d,]+\.?\d*`: the tail `\.?\d*` matches the
empty string, so the pattern matches at a position iff a `$` there is
followed, after whitespace, by at least one `[\d,]` character. -/
def usdAt (cs : List Char) : Bool :=
  match cs with
  | '$' :: r =>
    (match r.dropWhile isWsC with
     | c :: _ => isDigitC c || c == ','
     | [] => false)
  | _ => false

/-- `re.search(r'\$\s*[\d,]+\.?\d*', text)` as a boolean. -/
def usdSearch (cs : List Char) : Bool := cs.tails.any usdAt

/-- Case folding for `re.IGNORECASE`: ASCII, plus the uppercase forms of the
Vietnamese letters appearing in the VND pattern literals (the only non-ASCII
letters these patterns can be asked to fold). -/
def foldCI (c : Char) : Char :=
  if c = 'Đ' then 'đ'
  else if c = 'Ồ' then 'ồ'
  else if c = 'Ệ' then 'ệ'
  else if c = 'Ỷ' then 'ỷ'
  else if c = 'Ì' then 'ì'
  else if c = 'À' then 'à'
  else c.toLower

/-- Case-insensitive literal prefix test. -/
def startsWithCI (lit : List Char) (cs : List Char) : Bool :=
  (cs.take lit.length).map foldCI == lit.map foldCI

/-- Anchored matcher for `[\d.,]+\s*(alt1|alt2|...)` with literal
alternatives. -/
def vndAt (lits : List (List Char)) (cs : List Char) : Bool :=
  !(cs.takeWhile isNumPunct).isEmpty &&
    lits.any (fun l => startsWithCI l ((cs.dropWhile isNumPunct).dropWhile isWsC))

/-- `re.search` for the two VND patterns, parameterized by the alternative
suffix literals. -/
def vndSearch (lits : List (List Char)) (cs : List Char) : Bool :=
  cs.tails.any (vndAt lits)

/-- `\b` on the right of a digit: end of input or a non-word character. -/
def wordBreakAfter (cs : List Char) : Bool :=
  match cs with
  | [] => true
  | c :: _ => !isWordC c

/-- `([.,]\d{3})+\b` with backtracking over the group count: after each full
`[.,]\d\d\d` group either stop at a word boundary or continue with another
group. -/
def groupedTail (cs : List Char) : Bool :=
  match cs with
  | s :: d1 :: d2 :: d3 :: rest =>
    isSepC s && isDigitC d1 && isDigitC d2 && isDigitC d3 &&
      (wordBreakAfter rest || groupedTail rest)
  | _ => false

/-- Anchored matcher for `\b\d{1,3}([.,]\d{3})+\b` given whether the
preceding character is a word character (the first matched character is a
digit, so the left `\b` holds iff the previous character is not a word
character or the position is the start).  The `{1,3}` choice is enumerated
exhaustively. -/
def groupedAt (prevWord : Bool) (cs : List Char) : Bool :=
  !prevWord &&
    ((match cs with
      | d1 :: rest => isDigitC d1 && groupedTail rest
      | [] => false) ||
     (match cs with
      | d1 :: d2 :: rest => isDigitC d1 && isDigitC d2 && groupedTail rest
      | _ => false) ||
     (match cs with
      | d1 :: d2 :: d3 :: rest =>
        isDigitC d1 && isDigitC d2 && isDigitC d3 && groupedTail rest
      | _ => false))

/-- Try a position-anchored matcher at every start position, tracking
whether the previous character is a word character (for `\b`). -/
def searchWithPrev (f : Bool → List Char → Bool) : Bool → List Char → Bool
  | prev, [] => f prev []
  | prev, c :: rest => f prev (c :: rest) || searchWithPrev f (isWordC c) rest

/-- `re.search(r'\b\d{1,3}([.,]\d{3})+\b', text)` as a boolean. -/
def groupedSearch (cs : List Char) : Bool := searchWithPrev groupedAt false cs

/-- Anchored matcher for `\b\d+[.,]\d+\b` (both `\d+` runs are forced
maximal: a shorter first run would be followed by a digit where the
separator must be, a shorter second run would put the right `\b` between two
digits). -/
def decimalAt (prevWord : Bool) (cs : List Char) : Bool :=
  !prevWord &&
    !(cs.takeWhile isDigitC).isEmpty &&
    (match cs.dropWhile isDigitC with
     | s :: r2 =>
       isSepC s && !(r2.takeWhile isDigitC).isEmpty &&
         wordBreakAfter (r2.dropWhile isDigitC)
     | [] => false)

/-- `re.search(r'\b\d+[.,]\d+\b', text)` as a boolean. -/
def decimalSearch (cs : List Char) : Bool := searchWithPrev decimalAt false cs

/-- `CRITICAL_PATTERNS` (classifier.py): matchers paired with their
pattern-specific reasoning, in the source's fixed priority order
(percentage, USD, VND symbol-suffixed, VND word-suffixed, grouped number,
decimal number). -/
def CRITICAL_PATTERNS : List ((List Char → Bool) × String) :=
  [(pctSearch, "Giá trị phần trăm thay đổi"),
   (usdSearch, "Giá trị tiền tệ thay đổi (USD)"),
   (vndSearch ["VND".data, "đồng".data, "vnđ".data, "VNĐ".data],
     "Giá trị tiền tệ thay đổi (VND)"),
   (vndSearch ["triệu".data, "tỷ".data, "nghìn".data, "ngàn".data],
     "Giá trị tiền tệ thay đổi (VND)"),
   (groupedSearch, "Giá trị số thay đổi"),
   (decimalSearch, "Giá trị số thay đổi")]

/-- `RISK_STATEMENTS.get(reason, "Phát hiện thay đổi - cần xem xét")`
(classifier.py). -/
def riskFor (reason : String) : String :=
  if reason = "Giá trị phần trăm thay đổi" then
    "Có thể ảnh hưởng đến các tính toán tài chính - cần xác minh"
  else if reason = "Giá trị tiền tệ thay đổi (USD)" then
    "Sai lệch giá trị tiền tệ - có thể ảnh hưởng tài chính"
  else if reason = "Giá trị tiền tệ thay đổi (VND)" then
    "Sai lệch giá trị tiền tệ - có thể ảnh hưởng tài chính"
  else if reason = "Giá trị số thay đổi" then
    "Thay đổi dữ liệu số - cần kiểm tra với nguồn gốc"
  else "Phát hiện thay đổi - cần xem xét"

/-- The `texts_to_check` accumulation of `classify_by_rules`: the truthy
(nonempty) old/new texts of each word change, in order. -/
def collectTexts (wcs : List WordChange) : List (List Char) :=
  wcs.bind (fun wc =>
    (if wc.old_text.data.isEmpty then [] else [wc.old_text.data]) ++
    (if wc.new_text.data.isEmpty then [] else [wc.new_text.data]))

/-- `' '.join` at character-list level (python join semantics). -/
def joinChars : List (List Char) → List Char
  | [] => []
  | [t] => t
  | t :: ts => t ++ ' ' :: joinChars ts

/-- The `text_to_analyze` of `classify_by_rules`: the space-joined nonempty
word-change texts, or `diff_text or ""` when the edit has a falsy (absent or
empty) `word_changes`. -/
def textToAnalyzeChars (c : Change) : List Char :=
  match c.word_changes with
  | some (wc :: wcs) => joinChars (collectTexts (wc :: wcs))
  | _ => (c.diff_text.getD "").data

/-- `str.strip()`. -/
def pyStrip (cs : List Char) : List Char :=
  ((cs.dropWhile isWsC).reverse.dropWhile isWsC).reverse

/-- `re.sub(r'[^\w]', '', s)`: keep only word characters. -/
def stripNonWord (cs : List Char) : List Char := cs.filter isWordC

/-- ASCII `str.lower()` (the compared texts are `\w`-filtered fragments;
non-ASCII case folding does not arise for the claims below). -/
def lowerChars (cs : List Char) : List Char := cs.map Char.toLower

/-- `_is_trivial_change(change)` (classifier.py): `False` when
`word_changes` is falsy, else every word change must have equal old/new text
after strip, non-word removal and case folding. -/
def is_trivial_change (c : Change) : Bool :=
  match c.word_changes with
  | some (wc :: wcs) =>
    (wc :: wcs).all (fun w =>
      lowerChars (stripNonWord (pyStrip w.old_text.data)) ==
        lowerChars (stripNonWord (pyStrip w.new_text.data)))
  | _ => false

/-- The CRITICAL-pattern scan of `classify_by_rules`: the first matching
pattern wins. -/
def scanPatterns (text : List Char) : Option (ImpactLevel × String × String) :=
  match CRITICAL_PATTERNS.find? (fun pr => pr.1 text) with
  | some pr => some (ImpactLevel.critical, pr.2, riskFor pr.2)
  | none => none

/-- `classify_by_rules(change)` (classifier.py).  Python's no-match return
`(None, "", "")` is the `none` case. -/
def classify_by_rules (c : Change) : Option (ImpactLevel × String × String) :=
  if is_trivial_change c then
    some (ImpactLevel.low, "Thay đổi không đáng kể",
      "Không ảnh hưởng đến nghiệp vụ - chỉ thay đổi định dạng")
  else scanPatterns (textToAnalyzeChars c)

/-!
## ReasoningClassifier (`LLMClassifier`, classifier.py)

The external call (`chat.completions.create` followed by the json decode of
the reply text) is modelled by an explicit outcome parameter:

* `throwErr` is any exception raised inside the `try` of `classify_batch` —
  a transport error, or a decoded reply whose shape makes the
  post-processing of `_parse_response` raise (non-array reply, non-object
  items, non-integer-convertible ids, non-string impacts);
* `replyUnparseable` is a reply raising `json.JSONDecodeError`, which
  `_parse_response` catches itself, returning `{}` while the measured call
  time stands;
* `replyParsed` is a reply decoding to an array of objects, each carried as
  its optional integer-converted `id` and optional string `impact` (the
  code-fence stripping and the `int(change_id)` conversion are part of
  obtaining this normalized view).

The prompt strings sent to the service (`_build_prompt`,
`_get_system_prompt`) do not influence the modelled outcome and carry no
semantics here.
-/

/-- One `{id, impact}` object of a successfully decoded reply array. -/
structure ReplyItem where
  id : Option Int
  impact : Option String
  deriving DecidableEq, Repr

/-- Observable behavior of one external reasoning-service call. -/
inductive ServiceOutcome where
  | throwErr (msg : String)
  | replyUnparseable (elapsedMs : Nat)
  | replyParsed (items : List ReplyItem) (elapsedMs : Nat)
  deriving DecidableEq, Repr

/-- Classification dicts keyed by the (optional, int-converted) change id,
modelled as functions: the pipeline only tests membership and looks values
up, so function update gives exactly python's dict-overwrite semantics. -/
abbrev LLMMap := Option Int → Option (ImpactLevel × String × String)

/-- ASCII `str.lower()` on a whole string (the impact keywords are ASCII). -/
def pyLower (s : String) : String := s.map Char.toLower

/-- `impact_map.get(impact_str, ImpactLevel.MEDIUM)` of `_parse_response`
("high" maps to CRITICAL). -/
def impactOfStr (s : String) : ImpactLevel :=
  if s = "critical" then ImpactLevel.critical
  else if s = "medium" then ImpactLevel.medium
  else if s = "low" then ImpactLevel.low
  else if s = "high" then ImpactLevel.critical
  else ImpactLevel.medium

/-- The `default_reasons` table of `_parse_response` (total over the enum,
so the python `.get(impact, ("", ""))` default is unreachable). -/
def defaultReasonRisk : ImpactLevel → String × String
  | ImpactLevel.critical => ("Thay đổi quan trọng", "Cần xem xét kỹ")
  | ImpactLevel.medium => ("Thay đổi có ý nghĩa", "Cần xem xét")
  | ImpactLevel.low => ("Thay đổi nhỏ", "Ảnh hưởng thấp")

/-- The result-building loop of `_parse_response` over a decoded array
(`results[change_id] = (impact, reasoning, risk)`, later items with the same
id overwrite). -/
def parse_response (items : List ReplyItem) : LLMMap :=
  items.foldl
    (fun m item => fun k =>
      if k = item.id then
        some (impactOfStr (pyLower (item.impact.getD "medium")),
          (defaultReasonRisk (impactOfStr (pyLower (item.impact.getD "medium")))).1,
          (defaultReasonRisk (impactOfStr (pyLower (item.impact.getD "medium")))).2)
      else m k)
    (fun _ => none)

/-- `LLMClassifier.classify_batch(changes, document_type)`, returning the
`(dict, llm_time_ms)` pair.  `hasClient` is whether an API key is configured
(`self.client` non-None); `document_type` only shapes the prompt text and
has no further semantics; `outcome` is the environment's behavior for the
single external call.  The python `try/except` is the totality of this
function: every outcome yields a value, none raises. -/
def classify_batch (hasClient : Bool) (changes : List Change) (document_type : String)
    (outcome : ServiceOutcome) : LLMMap × Nat :=
  if changes.isEmpty then (fun _ => none, 0)
  else if !hasClient then
    (fun k =>
      if changes.any (fun c => decide (k = some (c.change_id : Int))) then
        some (ImpactLevel.medium, "LLM không khả dụng - mặc định mức trung bình",
          "Cần xem xét thủ công")
      else none, 0)
  else
    match outcome with
    | ServiceOutcome.throwErr msg =>
      (fun k =>
        if changes.any (fun c => decide (k = some (c.change_id : Int))) then
          some (ImpactLevel.medium, "Lỗi LLM: " ++ msg.take 50, "Cần xem xét thủ công")
        else none, 0)
    | ServiceOutcome.replyUnparseable t => (fun _ => none, t)
    | ServiceOutcome.replyParsed items t => (parse_response items, t)

/-!
## HybridPipeline (`classify_changes`, classifier.py)
-/

/-- The `ClassifiedChange` construction of `classify_changes`: all nine
`Change` fields copied, classification fields appended. -/
def mkClassified (c : Change) (imp : ImpactLevel) (reasoning risk src : String) :
    ClassifiedChange :=
  { change_id := c.change_id, change_type := c.change_type, block_type := c.block_type,
    location := c.location, original := c.original, modified := c.modified,
    similarity := c.similarity, diff_text := c.diff_text, word_changes := c.word_changes,
    impact := imp, reasoning := reasoning, risk_analysis := risk,
    classification_source := src }

/-- Layer 1 of `classify_changes`: the rule loop, producing the
rule-classified changes (tagged "rule-based") and the `needs_llm` batch,
both in input order. -/
def rulePass : List Change → List ClassifiedChange × List Change
  | [] => ([], [])
  | c :: rest =>
    match classify_by_rules c with
    | some (imp, reasoning, risk) =>
      (mkClassified c imp reasoning risk "rule-based" :: (rulePass rest).1, (rulePass rest).2)
    | none => ((rulePass rest).1, c :: (rulePass rest).2)

/-- `classified.sort(key=lambda c: c.change_id)`: python's stable ascending
sort, modelled by stable merge sort on the same key. -/
def sortById (l : List ClassifiedChange) : List ClassifiedChange :=
  l.mergeSort (fun c d => decide (c.change_id ≤ d.change_id))

/-- The classification applied to one `needs_llm` change given the service
dict: a hit uses the service result, a miss degrades to MEDIUM with the
"Không thể phân loại" reasoning; both are tagged "llm". -/
def llmClassify (m : LLMMap) (c : Change) : ClassifiedChange :=
  match m (some (c.change_id : Int)) with
  | some (imp, reasoning, risk) => mkClassified c imp reasoning risk "llm"
  | none => mkClassified c ImpactLevel.medium "Không thể phân loại" "Cần xem xét thủ công" "llm"

/-- `classify_changes(changes, document_type, api_key)` (classifier.py):
rule layer, then — when the batch is non-empty — exactly one batched service
call (`llm_calls = 1`), then merge and sort by change id. -/
def classify_changes (changes : List Change) (document_type : String)
    (hasClient : Bool) (outcome : ServiceOutcome) : ClassificationResult :=
  if (rulePass changes).2.isEmpty then
    { classified_changes := sortById (rulePass changes).1, llm_time_ms := 0, llm_calls := 0 }
  else
    { classified_changes := sortById ((rulePass changes).1 ++
        (rulePass changes).2.map
          (llmClassify (classify_batch hasClient (rulePass changes).2 document_type outcome).1)),
      llm_time_ms := (classify_batch hasClient (rulePass changes).2 document_type outcome).2,
      llm_calls := 1 }

/-- Projection of a `ClassifiedChange` back onto its nine `Change` fields
(used to state that classification only adds fields). -/
def eraseClassification (o : ClassifiedChange) : Change :=
  { change_id := o.change_id, change_type := o.change_type, block_type := o.block_type,
    location := o.location, original := o.original, modified := o.modified,
    similarity := o.similarity, diff_text := o.diff_text, word_changes := o.word_changes }

/-- `true` exactly on the `modified` entries of a `_match_similar_blocks`
result. -/
def isModifiedItem : MatchItem → Bool
  | MatchItem.modified _ _ _ _ _ => true
  | _ => false

/-!
## Sample inputs used by concrete witnesses and counterexamples
-/

/-- An edit no rule resolves: no word changes, `diff_text` without numeric
content, so it is routed to the reasoning service. -/
def sampleNeedsLLM : Change :=
  { change_id := 7, change_type := ChangeType.modified, block_type := "paragraph",
    location := "Block 1", original := some "abc", modified := some "abd",
    similarity := some (9/10), diff_text := some "xyz", word_changes := none }

/-- An edit whose `word_changes` list is present but empty. -/
def sampleEmptyWordChanges : Change :=
  { change_id := 4, change_type := ChangeType.deleted, block_type := "paragraph",
    location := "Block 2", original := some "note", modified := none,
    similarity := none, diff_text := some "note", word_changes := some [] }

/-- The single word change of `sampleUsd`. -/
def wcUsd : WordChange :=
  { change_type := "deleted", old_text := "$100", new_text := "", context := "ctx" }

/-- An edit whose analyzed text is exactly `$100` (one deleted word change). -/
def sampleUsd : Change :=
  { change_id := 5, change_type := ChangeType.modified, block_type := "paragraph",
    location := "Block 3", original := some "a", modified := some "b",
    similarity := some (4/5), diff_text := some "d", word_changes := some [wcUsd] }

/-- A punctuation-only word change (`"Hello," → "Hello"`). -/
def wcHello : WordChange :=
  { change_type := "replaced", old_text := "Hello,", new_text := "Hello", context := "c" }

/-- An unchanged numeric word change (`"100%" → "100%"`), percent-matching
text. -/
def wcPct : WordChange :=
  { change_type := "replaced", old_text := "100%", new_text := "100%", context := "c" }

/-- A punctuation-only edit that also contains a percentage value: trivial
per the triviality rule even though the percent pattern matches its text. -/
def sampleTrivial : Change :=
  { change_id := 6, change_type := ChangeType.modified, block_type := "paragraph",
    location := "Block 4", original := some "Hello, 100%", modified := some "Hello 100%",
    similarity := some (9/10), diff_text := some "d",
    word_changes := some [wcHello, wcPct] }

/-- Content units used by the threshold witnesses: `smRatio "ab" "bc" = 1/2`
exactly, `smRatio "ab" "azzz" = 1/3 < 1/2`. -/
def blockAb : ContentBlock := { index := 0, block_type := "paragraph", content := "ab" }

/-- See `blockAb`. -/
def blockBc : ContentBlock := { index := 0, block_type := "paragraph", content := "bc" }

/-- See `blockAb`. -/
def blockAz : ContentBlock := { index := 0, block_type := "paragraph", content := "azzz" }

end DocTracker

/-!
# Verification

Helper lemmas first, then one theorem per specification claim (with concrete
witnesses / counterexamples where applicable).
-/

namespace DocTracker

/-! ### Pipeline helper lemmas -/

theorem eraseClassification_mkClassified (c : Change) (imp : ImpactLevel) (r k s : String) :
    eraseClassification (mkClassified c imp r k s) = c := rfl

theorem eraseClassification_llmClassify (m : LLMMap) (c : Change) :
    eraseClassification (llmClassify m c) = c := by
  unfold llmClassify
  cases m (some (c.change_id : Int)) with
  | none => rfl
  | some t =>
    obtain ⟨imp, r, k⟩ := t
    rfl

theorem rulePass_perm (l : List Change) :
    ((rulePass l).1.map eraseClassification ++ (rulePass l).2).Perm l := by
  induction l with
  | nil => simp [rulePass]
  | cons c rest ih =>
    cases h : classify_by_rules c with
    | some t =>
      obtain ⟨imp, r, k⟩ := t
      simp only [rulePass, h, List.map_cons, eraseClassification_mkClassified,
        List.cons_append]
      exact ih.cons c
    | none =>
      simp only [rulePass, h]
      exact List.perm_middle.trans (ih.cons c)

theorem rulePass_none_mem (l : List Change) (c : Change) (hc : c ∈ l)
    (hr : classify_by_rules c = none) : c ∈ (rulePass l).2 := by
  induction l with
  | nil => cases hc
  | cons d rest ih =>
    rcases List.mem_cons.mp hc with h | h
    · subst h
      simp only [rulePass, hr]
      exact List.mem_cons_self _ _
    · cases hd : classify_by_rules d with
      | some t =>
        obtain ⟨i1, r1, k1⟩ := t
        simpa [rulePass, hd] using ih h
      | none =>
        simp only [rulePass, hd]
        exact List.mem_cons_of_mem _ (ih h)

theorem sortById_perm (l : List ClassifiedChange) : (sortById l).Perm l :=
  List.mergeSort_perm l _

theorem sortById_sorted (l : List ClassifiedChange) :
    List.Pairwise (fun a b => a.change_id ≤ b.change_id) (sortById l) := by
  have h := @List.sorted_mergeSort ClassifiedChange
    (fun c d : ClassifiedChange => decide (c.change_id ≤ d.change_id))
    (fun a b c hab hbc => by
      simp only [decide_eq_true_eq] at hab hbc ⊢
      omega)
    (fun a b => by
      simp only [Bool.or_eq_true, decide_eq_true_eq]
      omega)
    l
  exact h.imp (fun hab => of_decide_eq_true hab)

theorem map_erase_llm (m : LLMMap) (l : List Change) :
    (l.map (llmClassify m)).map eraseClassification = l := by
  induction l with
  | nil => rfl
  | cons c rest ih => simp only [List.map_cons, eraseClassification_llmClassify, ih]

/-- The frame property of the pipeline, shared by several claims below:
stripping the classification fields from the output gives back exactly the
input multiset. -/
theorem pipeline_frame_perm (changes : List Change) (d : String) (hc : Bool)
    (oc : ServiceOutcome) :
    ((classify_changes changes d hc oc).classified_changes.map eraseClassification).Perm
      changes := by
  unfold classify_changes
  split
  · rename_i h
    have h2 : (rulePass changes).2 = [] := by simpa using h
    dsimp only
    refine ((sortById_perm _).map eraseClassification).trans ?_
    have hp := rulePass_perm changes
    rw [h2, List.append_nil] at hp
    exact hp
  · dsimp only
    refine ((sortById_perm _).map eraseClassification).trans ?_
    rw [List.map_append, map_erase_llm]
    exact rulePass_perm changes

/-! ### Id-assignment lemmas for the aligner -/

theorem map_change_id_zipWith {β : Type} (g : Nat → β → Change)
    (hg : ∀ a x, (g a x).change_id = a) :
    ∀ (xs : List Nat) (ys : List β), ys.length = xs.length →
      (List.zipWith g xs ys).map (fun c => c.change_id) = xs := by
  intro xs
  induction xs with
  | nil => intro ys _; simp
  | cons a xs ih =>
    intro ys hlen
    cases ys with
    | nil => simp at hlen
    | cons y ys =>
      simp only [List.zipWith_cons_cons, List.map_cons, hg]
      rw [ih ys (by simpa using hlen)]

theorem itemToChange_id (a : Nat) (it : MatchItem) : (itemToChange a it).change_id = a := by
  cases it <;> rfl

theorem opChanges_ids (b1 b2 : List ContentBlock) (cid : Nat)
    (op : Tag × Nat × Nat × Nat × Nat) :
    (opChanges b1 b2 cid op).map (fun c => c.change_id) =
      List.range' cid (opChanges b1 b2 cid op).length := by
  obtain ⟨tag, i1, i2, j1, j2⟩ := op
  cases tag with
  | equal => simp [opChanges]
  | delete =>
    simp only [opChanges]
    rw [map_change_id_zipWith (deleteChange b1) (fun a x => rfl) _ _
      (by simp [List.length_range'])]
    congr 1
    simp [List.length_zipWith, List.length_range']
  | insert =>
    simp only [opChanges]
    rw [map_change_id_zipWith (insertChange b2) (fun a x => rfl) _ _
      (by simp [List.length_range'])]
    congr 1
    simp [List.length_zipWith, List.length_range']
  | replace =>
    simp only [opChanges]
    rw [map_change_id_zipWith itemToChange itemToChange_id _ _
      (by simp [List.length_range'])]
    congr 1
    simp [List.length_zipWith, List.length_range']

theorem diffGo_ids (b1 b2 : List ContentBlock) :
    ∀ (ops : List (Tag × Nat × Nat × Nat × Nat)) (cid : Nat),
      (diffGo b1 b2 ops cid).map (fun c => c.change_id) =
        List.range' cid (diffGo b1 b2 ops cid).length := by
  intro ops
  induction ops with
  | nil => intro cid; simp [diffGo]
  | cons op ops ih =>
    intro cid
    simp only [diffGo, List.map_append, List.length_append]
    rw [opChanges_ids, ih]
    have h := List.range'_append cid (opChanges b1 b2 cid op).length
      (diffGo b1 b2 ops (cid + (opChanges b1 b2 cid op).length)).length 1
    simp only [one_mul] at h
    rw [h, Nat.add_comm]

/-- The aligner assigns the ids 1, 2, ..., n in emission order. -/
theorem diff_documents_ids (v1 v2 : List ContentBlock) :
    (diff_documents v1 v2).map (fun c => c.change_id) =
      List.range' 1 (diff_documents v1 v2).length :=
  diffGo_ids _ _ _ _

theorem pipeline_ids_perm (changes : List Change) (d : String) (hc : Bool)
    (oc : ServiceOutcome) :
    ((classify_changes changes d hc oc).classified_changes.map
      (fun o => o.change_id)).Perm (changes.map (fun c => c.change_id)) := by
  have h := (pipeline_frame_perm changes d hc oc).map (fun c : Change => c.change_id)
  rw [List.map_map] at h
  exact h

theorem pipeline_out_sorted (changes : List Change) (d : String) (hc : Bool)
    (oc : ServiceOutcome) :
    List.Pairwise (fun a b => a ≤ b)
      ((classify_changes changes d hc oc).classified_changes.map
        (fun o => o.change_id)) := by
  rw [List.pairwise_map]
  unfold classify_changes
  split <;> dsimp only <;> exact sortById_sorted _

/-! ### Claim theorems -/

/-- C3: for every pair of unit lists (whose aligned edits are the pipeline's
inputs) and every behavior of the reasoning service — configured or not,
erroring, unparseable, or any partial reply — the classification result has
exactly one `ClassifiedChange` per input edit (equal lengths and the output
id sequence is exactly the aligner's gap-free id sequence 1..n), and the
output is sorted strictly ascending by edit id, rule- and service-classified
edits interleaved purely by id. -/
theorem c3_complete_ordered (v1 v2 : List ContentBlock) (d : String) (hc : Bool)
    (oc : ServiceOutcome) :
    (classify_changes (diff_documents v1 v2) d hc oc).classified_changes.length =
      (diff_documents v1 v2).length ∧
    (classify_changes (diff_documents v1 v2) d hc oc).classified_changes.map
        (fun o => o.change_id) = List.range' 1 (diff_documents v1 v2).length ∧
    List.Pairwise (fun a b => a < b)
      ((classify_changes (diff_documents v1 v2) d hc oc).classified_changes.map
        (fun o => o.change_id)) := by
  have hperm := pipeline_ids_perm (diff_documents v1 v2) d hc oc
  rw [diff_documents_ids] at hperm
  have hids : (classify_changes (diff_documents v1 v2) d hc oc).classified_changes.map
      (fun o => o.change_id) = List.range' 1 (diff_documents v1 v2).length := by
    refine List.eq_of_perm_of_sorted (r := fun a b : ℕ => a ≤ b) hperm ?_ ?_
    · exact pipeline_out_sorted (diff_documents v1 v2) d hc oc
    · exact (List.pairwise_lt_range' 1 _).imp le_of_lt
  refine ⟨?_, hids, ?_⟩
  · have hlen := congrArg List.length hids
    simpa using hlen
  · rw [hids]
    exact List.pairwise_lt_range' 1 _

/-- C10: for every input edit list and every service behavior, the pipeline
output carries each input edit's nine fields (id, kind, unit kind, location,
original, modified, similarity, diff text, word changes) unchanged:
projecting the classification fields away from the output gives back exactly
the input edits (as a permutation — C3 settles the order), regardless of
which path classified each edit. -/
theorem c10_frame_preservation (changes : List Change) (d : String) (hc : Bool)
    (oc : ServiceOutcome) :
    ((classify_changes changes d hc oc).classified_changes.map
      eraseClassification).Perm changes :=
  pipeline_frame_perm changes d hc oc

/-! ### classify_batch case lemmas -/

theorem classify_batch_noclient (changes : List Change) (d : String) (oc : ServiceOutcome)
    (hne : changes ≠ []) :
    classify_batch false changes d oc =
      (fun k =>
        if changes.any (fun c => decide (k = some (c.change_id : Int))) then
          some (ImpactLevel.medium, "LLM không khả dụng - mặc định mức trung bình",
            "Cần xem xét thủ công")
        else none, 0) := by
  unfold classify_batch
  rw [if_neg (by simp [hne]), if_pos (by simp)]

theorem classify_batch_throw (changes : List Change) (d : String) (msg : String)
    (hne : changes ≠ []) :
    classify_batch true changes d (ServiceOutcome.throwErr msg) =
      (fun k =>
        if changes.any (fun c => decide (k = some (c.change_id : Int))) then
          some (ImpactLevel.medium, "Lỗi LLM: " ++ msg.take 50, "Cần xem xét thủ công")
        else none, 0) := by
  unfold classify_batch
  rw [if_neg (by simp [hne]), if_neg (by simp)]

theorem classify_batch_unparseable (changes : List Change) (d : String) (t : Nat)
    (hne : changes ≠ []) :
    classify_batch true changes d (ServiceOutcome.replyUnparseable t) =
      (fun _ => none, t) := by
  unfold classify_batch
  rw [if_neg (by simp [hne]), if_neg (by simp)]

/-- Membership of an llm-classified change in the pipeline output. -/
theorem llm_out_mem (changes : List Change) (d : String) (hc : Bool) (oc : ServiceOutcome)
    (c : Change) (hmem : c ∈ (rulePass changes).2) :
    llmClassify (classify_batch hc (rulePass changes).2 d oc).1 c ∈
      (classify_changes changes d hc oc).classified_changes := by
  unfold classify_changes
  split
  · rename_i h
    exact absurd hmem (by simp [List.isEmpty_iff.mp h])
  · dsimp only
    exact (sortById_perm _).mem_iff.mpr
      (List.mem_append_right _ (List.mem_map_of_mem _ hmem))

/-! ### C1 -/

/-- C1 (amended): the service boundary of `classify_batch` is total — no
outcome raises past it — but transport failure and parse failure are treated
differently.  On a transport failure (the external call throws), every
pending edit is degraded to MEDIUM with the error-derived reasoning
`"Lỗi LLM: <error>"` and the reported service time is 0.  When the reply
arrives but is not parseable JSON, `classify_batch` instead returns an empty
mapping together with the measured (nonzero as measured) call time, and the
pipeline then degrades each pending edit to MEDIUM with the
could-not-classify reasoning `"Không thể phân loại"`. -/
theorem c1_batch_failure_degradation (changes : List Change) (d : String) (msg : String)
    (t : Nat) (hne : changes ≠ []) :
    ((classify_batch true changes d (ServiceOutcome.throwErr msg)).2 = 0 ∧
      ∀ c ∈ changes,
        (classify_batch true changes d (ServiceOutcome.throwErr msg)).1
            (some (c.change_id : Int)) =
          some (ImpactLevel.medium, "Lỗi LLM: " ++ msg.take 50, "Cần xem xét thủ công")) ∧
    ((classify_batch true changes d (ServiceOutcome.replyUnparseable t)).2 = t ∧
      ∀ k, (classify_batch true changes d (ServiceOutcome.replyUnparseable t)).1 k = none) ∧
    (∀ c ∈ changes, classify_by_rules c = none →
      ∃ o ∈ (classify_changes changes d true
          (ServiceOutcome.replyUnparseable t)).classified_changes,
        o.change_id = c.change_id ∧ o.impact = ImpactLevel.medium ∧
        o.reasoning = "Không thể phân loại" ∧ o.risk_analysis = "Cần xem xét thủ công" ∧
        o.classification_source = "llm") := by
  refine ⟨⟨?_, ?_⟩, ⟨?_, ?_⟩, ?_⟩
  · rw [classify_batch_throw changes d msg hne]
  · intro c hc
    rw [classify_batch_throw changes d msg hne]
    dsimp only
    rw [if_pos]
    simp only [List.any_eq_true, decide_eq_true_eq]
    exact ⟨c, hc, rfl⟩
  · rw [classify_batch_unparseable changes d t hne]
  · intro k
    rw [classify_batch_unparseable changes d t hne]
  · intro c hc hrule
    have hmem := rulePass_none_mem changes c hc hrule
    have hne2 : (rulePass changes).2 ≠ [] := List.ne_nil_of_mem hmem
    refine ⟨llmClassify (classify_batch true (rulePass changes).2 d
      (ServiceOutcome.replyUnparseable t)).1 c,
      llm_out_mem changes d true (ServiceOutcome.replyUnparseable t) c hmem, ?_⟩
    rw [classify_batch_unparseable _ d t hne2]
    exact ⟨rfl, rfl, rfl, rfl, rfl⟩

/-- C1 (counterexample to the claim as stated): a call whose reply arrives
but is not parseable JSON reports the measured elapsed time — here 123 ms —
as the result's service time, not zero. -/
theorem c1_counterexample :
    (classify_changes [sampleNeedsLLM] "general" true
      (ServiceOutcome.replyUnparseable 123)).llm_time_ms ≠ 0 := by decide

/-- Witness for `c1_batch_failure_degradation` at a concrete batch. -/
theorem c1_batch_failure_degradation_witness :
    ((classify_batch true [sampleNeedsLLM] "general" (ServiceOutcome.throwErr "boom")).2 = 0 ∧
      (classify_batch true [sampleNeedsLLM] "general" (ServiceOutcome.throwErr "boom")).1
          (some (sampleNeedsLLM.change_id : Int)) =
        some (ImpactLevel.medium, "Lỗi LLM: " ++ "boom".take 50, "Cần xem xét thủ công")) ∧
    ((classify_batch true [sampleNeedsLLM] "general" (ServiceOutcome.replyUnparseable 9)).2 = 9) ∧
    (∃ o ∈ (classify_changes [sampleNeedsLLM] "general" true
        (ServiceOutcome.replyUnparseable 9)).classified_changes,
      o.change_id = sampleNeedsLLM.change_id ∧ o.impact = ImpactLevel.medium ∧
      o.reasoning = "Không thể phân loại" ∧ o.risk_analysis = "Cần xem xét thủ công" ∧
      o.classification_source = "llm") := by
  have h := c1_batch_failure_degradation [sampleNeedsLLM] "general" "boom" 9 (by decide)
  exact ⟨⟨h.1.1, h.1.2 sampleNeedsLLM (by simp)⟩, h.2.1.1,
    h.2.2 sampleNeedsLLM (by simp) (by decide)⟩

/-! ### C2 -/

/-- C2 (amended): with no external-service credential configured and at
least one rule-unresolved edit, the pipeline returns MEDIUM for every such
edit with the fixed service-unavailable reasoning and reports
`service_time_ms = 0`; however it reports `service_calls = 1` (the batch was
non-empty), not 0. -/
theorem c2_no_credential_degradation (changes : List Change) (d : String)
    (oc : ServiceOutcome) (c : Change) (hmem : c ∈ changes)
    (hrule : classify_by_rules c = none) :
    (classify_changes changes d false oc).llm_time_ms = 0 ∧
    (classify_changes changes d false oc).llm_calls = 1 ∧
    ∃ o ∈ (classify_changes changes d false oc).classified_changes,
      o.change_id = c.change_id ∧ o.impact = ImpactLevel.medium ∧
      o.reasoning = "LLM không khả dụng - mặc định mức trung bình" ∧
      o.risk_analysis = "Cần xem xét thủ công" ∧ o.classification_source = "llm" := by
  have hmem2 := rulePass_none_mem changes c hmem hrule
  have hne2 : (rulePass changes).2 ≠ [] := List.ne_nil_of_mem hmem2
  have hnb : ¬(rulePass changes).2.isEmpty = true := by simp [List.isEmpty_iff, hne2]
  refine ⟨?_, ?_, ?_⟩
  · unfold classify_changes
    rw [if_neg hnb]
    dsimp only
    rw [classify_batch_noclient _ d oc hne2]
  · unfold classify_changes
    rw [if_neg hnb]
  · refine ⟨llmClassify (classify_batch false (rulePass changes).2 d oc).1 c,
      llm_out_mem changes d false oc c hmem2, ?_⟩
    rw [classify_batch_noclient _ d oc hne2]
    unfold llmClassify
    dsimp only
    rw [if_pos]
    · exact ⟨rfl, rfl, rfl, rfl, rfl⟩
    · simp only [List.any_eq_true, decide_eq_true_eq]
      exact ⟨c, hmem2, rfl⟩

/-- C2 (counterexample to the claim as stated): with no credential and one
unresolved edit, the result reports `service_calls = 1`, not 0. -/
theorem c2_counterexample :
    (classify_changes [sampleNeedsLLM] "general" false
      (ServiceOutcome.throwErr "")).llm_calls ≠ 0 := by decide

/-- Witness for `c2_no_credential_degradation` at a concrete input. -/
theorem c2_no_credential_degradation_witness :
    (classify_changes [sampleNeedsLLM] "general" false
      (ServiceOutcome.throwErr "")).llm_time_ms = 0 ∧
    (classify_changes [sampleNeedsLLM] "general" false
      (ServiceOutcome.throwErr "")).llm_calls = 1 ∧
    ∃ o ∈ (classify_changes [sampleNeedsLLM] "general" false
        (ServiceOutcome.throwErr "")).classified_changes,
      o.change_id = sampleNeedsLLM.change_id ∧ o.impact = ImpactLevel.medium ∧
      o.reasoning = "LLM không khả dụng - mặc định mức trung bình" ∧
      o.risk_analysis = "Cần xem xét thủ công" ∧ o.classification_source = "llm" :=
  c2_no_credential_degradation [sampleNeedsLLM] "general" (ServiceOutcome.throwErr "")
    sampleNeedsLLM (by simp) (by decide)

/-! ### C7 -/

/-- C7 (amended): edits whose `word_changes` list is empty or absent are
never deemed trivial — `_is_trivial_change` explicitly returns `False` for a
falsy list instead of reading its universally quantified condition as
vacuously true — so rule 1 does not fire; classification falls through to
the pattern scan over `diff_text`, which yields CRITICAL or defers to the
reasoning service, never the trivial-LOW result. -/
theorem c7_empty_word_changes (c : Change)
    (h : c.word_changes = none ∨ c.word_changes = some []) :
    is_trivial_change c = false ∧
    classify_by_rules c = scanPatterns (textToAnalyzeChars c) ∧
    ∀ x, classify_by_rules c = some x → x.1 = ImpactLevel.critical := by
  have htriv : is_trivial_change c = false := by
    rcases h with h | h <;> (unfold is_trivial_change; rw [h])
  have hcbr : classify_by_rules c = scanPatterns (textToAnalyzeChars c) := by
    simp [classify_by_rules, htriv]
  refine ⟨htriv, hcbr, ?_⟩
  intro x hx
  rw [hcbr] at hx
  unfold scanPatterns at hx
  rcases hfind : CRITICAL_PATTERNS.find? (fun pr => pr.1 (textToAnalyzeChars c)) with _ | pr
  · rw [hfind] at hx
    cases hx
  · rw [hfind] at hx
    cases hx
    rfl

/-- C7 (counterexample to the claim as stated): an edit with an empty
word-change list and a pattern-free diff text is not classified LOW — the
rule classifier returns no result at all and the edit is deferred to the
service. -/
theorem c7_counterexample :
    sampleEmptyWordChanges.word_changes = some [] ∧
    classify_by_rules sampleEmptyWordChanges = none :=
  ⟨rfl, by decide⟩

/-- Witness for `c7_empty_word_changes`. -/
theorem c7_empty_word_changes_witness :
    is_trivial_change sampleEmptyWordChanges = false ∧
    classify_by_rules sampleEmptyWordChanges =
      scanPatterns (textToAnalyzeChars sampleEmptyWordChanges) ∧
    ∀ x, classify_by_rules sampleEmptyWordChanges = some x →
      x.1 = ImpactLevel.critical :=
  c7_empty_word_changes sampleEmptyWordChanges (Or.inr rfl)

/-! ### C6 -/

/-- C6: an edit with a non-empty word-change list in which every change's
old and new text agree after stripping non-word characters and case folding
is classified LOW by the triviality rule; since the trivial branch is tested
before the pattern scan, this holds regardless of any numeric/currency
content in the edit's text (see the witness, whose second word change is the
pattern-matching `"100%" → "100%"`). -/
theorem c6_trivial_low (c : Change) (wcs : List WordChange)
    (hwc : c.word_changes = some wcs) (hne : wcs ≠ [])
    (htriv : ∀ w ∈ wcs,
      lowerChars (stripNonWord (pyStrip w.old_text.data)) =
        lowerChars (stripNonWord (pyStrip w.new_text.data))) :
    classify_by_rules c = some (ImpactLevel.low, "Thay đổi không đáng kể",
      "Không ảnh hưởng đến nghiệp vụ - chỉ thay đổi định dạng") := by
  have ht : is_trivial_change c = true := by
    unfold is_trivial_change
    rw [hwc]
    cases wcs with
    | nil => exact absurd rfl hne
    | cons w ws =>
      rw [List.all_eq_true]
      intro w' hw'
      exact beq_iff_eq.mpr (htriv w' hw')
  simp [classify_by_rules, ht]

/-- Witness for `c6_trivial_low`: the punctuation-only `"Hello," → "Hello"`
edit is LOW even though its analyzed text also contains `100%`, which the
percentage pattern would classify CRITICAL. -/
theorem c6_trivial_low_witness :
    classify_by_rules sampleTrivial = some (ImpactLevel.low, "Thay đổi không đáng kể",
      "Không ảnh hưởng đến nghiệp vụ - chỉ thay đổi định dạng") ∧
    pctSearch (textToAnalyzeChars sampleTrivial) = true :=
  ⟨c6_trivial_low sampleTrivial [wcHello, wcPct] rfl (by decide) (by decide), by decide⟩

/-! ### C5 -/

/-- Fallback entry for `List.getD` over the pattern list: a pattern that
matches nothing. -/
def dummyPat : (List Char → Bool) × String := (fun _ => false, "")

theorem find?_first_match :
    ∀ (ps : List ((List Char → Bool) × String)) (i : Nat) (t : List Char),
      (ps.getD i dummyPat).1 t = true →
      (ps.take i).all (fun pr => !pr.1 t) = true →
      ps.find? (fun pr => pr.1 t) = some (ps.getD i dummyPat) := by
  intro ps
  induction ps with
  | nil =>
    intro i t hp _
    simp [List.getD, dummyPat] at hp
  | cons p rest ih =>
    intro i t hp hall
    cases i with
    | zero =>
      have hpt : (fun pr : (List Char → Bool) × String => pr.1 t) p = true := by
        simpa using hp
      rw [@List.find?_cons_of_pos _ (fun pr => pr.1 t) p rest hpt]
      simp
    | succ n =>
      have htake : (p :: rest).take (n + 1) = p :: rest.take n := rfl
      rw [htake, List.all_cons, Bool.and_eq_true] at hall
      have hneg : ¬((fun pr : (List Char → Bool) × String => pr.1 t) p = true) := by
        simp only [Bool.not_eq_true] at hall ⊢
        simpa using hall.1
      rw [@List.find?_cons_of_neg _ (fun pr => pr.1 t) p rest hneg,
        List.getD_cons_succ] at *
      exact ih n t hp hall.2

theorem joinChars_two_mem_space (x y : List Char) (rest : List (List Char)) :
    ' ' ∈ joinChars (x :: y :: rest) := by
  have he : joinChars (x :: y :: rest) = x ++ ' ' :: joinChars (y :: rest) := rfl
  rw [he]
  exact List.mem_append_right _ (List.mem_cons_self _ _)

theorem collectTexts_singleton :
    ∀ (wcs : List WordChange) (t : List Char), collectTexts wcs = [t] →
      ∃ w ∈ wcs, (w.old_text.data = t ∧ w.new_text.data = []) ∨
        (w.old_text.data = [] ∧ w.new_text.data = t) := by
  intro wcs
  induction wcs with
  | nil => intro t h; cases h
  | cons w ws ih =>
    intro t h
    have hc : collectTexts (w :: ws) =
        ((if w.old_text.data.isEmpty then [] else [w.old_text.data]) ++
         (if w.new_text.data.isEmpty then [] else [w.new_text.data])) ++
          collectTexts ws := by
      simp [collectTexts]
    by_cases ho : w.old_text.data.isEmpty <;> by_cases hn : w.new_text.data.isEmpty
    · rw [hc, if_pos ho, if_pos hn] at h
      simp only [List.nil_append] at h
      obtain ⟨w', hw', hcase⟩ := ih t h
      exact ⟨w', List.mem_cons_of_mem _ hw', hcase⟩
    · rw [hc, if_pos ho, if_neg hn] at h
      simp only [List.nil_append, List.cons_append] at h
      obtain ⟨h1, h2⟩ := List.cons.injEq .. ▸ h
      have h3 : ws = [] ∨ collectTexts ws = [] := Or.inr (by simpa using h2)
      exact ⟨w, List.mem_cons_self _ _,
        Or.inr ⟨List.isEmpty_iff.mp ho, h1⟩⟩
    · rw [hc, if_neg ho, if_pos hn] at h
      simp only [List.append_nil, List.cons_append, List.nil_append] at h
      obtain ⟨h1, h2⟩ := List.cons.injEq .. ▸ h
      exact ⟨w, List.mem_cons_self _ _,
        Or.inl ⟨h1, List.isEmpty_iff.mp hn⟩⟩
    · rw [hc, if_neg ho, if_neg hn] at h
      simp only [List.cons_append, List.nil_append] at h
      obtain ⟨h1, h2⟩ := List.cons.injEq .. ▸ h
      cases h2

/-- An edit whose analyzed text is `$100` cannot pass the triviality check:
the `$100` fragment necessarily sits alone on one side of a word change
whose other side is empty. -/
theorem usd_not_trivial (c : Change) (htext : textToAnalyzeChars c = "$100".data) :
    is_trivial_change c = false := by
  cases hwc : c.word_changes with
  | none => unfold is_trivial_change; rw [hwc]
  | some wcs =>
    cases wcs with
    | nil => unfold is_trivial_change; rw [hwc]
    | cons w ws =>
      have hjoin : joinChars (collectTexts (w :: ws)) = "$100".data := by
        unfold textToAnalyzeChars at htext
        rw [hwc] at htext
        exact htext
      rcases hct : collectTexts (w :: ws) with _ | ⟨t, rest⟩
      · rw [hct] at hjoin
        cases hjoin
      · cases rest with
        | cons t2 rest2 =>
          rw [hct] at hjoin
          exfalso
          have hsp := joinChars_two_mem_space t t2 rest2
          rw [hjoin] at hsp
          exact absurd hsp (by decide)
        | nil =>
          rw [hct] at hjoin
          have ht : t = "$100".data := hjoin
          obtain ⟨w', hw', hcase⟩ := collectTexts_singleton (w :: ws) t hct
          rw [ht] at hcase
          unfold is_trivial_change
          rw [hwc]
          apply Bool.eq_false_iff.mpr
          intro hall
          have hf := List.all_eq_true.mp hall w' hw'
          rcases hcase with ⟨h1, h2⟩ | ⟨h1, h2⟩ <;> rw [h1, h2] at hf <;>
            exact absurd hf (by decide)

/-- C5: (i) every edit whose analyzed text is exactly `$100` is classified
CRITICAL with the USD-currency reasoning and risk statement (never the
generic-number ones); (ii) in general the CRITICAL-pattern scan is
first-match-wins in the fixed priority order percentage, USD currency, VND
currency, VND word, grouped number, decimal number: whenever pattern `i`
matches the analyzed text and every earlier pattern does not, the scan
returns pattern `i`'s reasoning with its risk statement. -/
theorem c5_priority_usd :
    (∀ c : Change, textToAnalyzeChars c = "$100".data →
      classify_by_rules c = some (ImpactLevel.critical, "Giá trị tiền tệ thay đổi (USD)",
        "Sai lệch giá trị tiền tệ - có thể ảnh hưởng tài chính")) ∧
    (∀ (t : List Char) (i : Nat),
      (CRITICAL_PATTERNS.getD i dummyPat).1 t = true →
      (CRITICAL_PATTERNS.take i).all (fun pr => !pr.1 t) = true →
      scanPatterns t = some (ImpactLevel.critical, (CRITICAL_PATTERNS.getD i dummyPat).2,
        riskFor (CRITICAL_PATTERNS.getD i dummyPat).2)) := by
  constructor
  · intro c htext
    have hnt := usd_not_trivial c htext
    unfold classify_by_rules
    rw [htext, if_neg (by simp [hnt])]
    decide
  · intro t i hp hall
    unfold scanPatterns
    rw [find?_first_match CRITICAL_PATTERNS i t hp hall]

/-- Witness for `c5_priority_usd` at concrete inputs: the `$100` edit, and
pattern index 1 (USD) on the text `$100` with the percentage pattern (the
only earlier one) not matching. -/
theorem c5_priority_usd_witness :
    classify_by_rules sampleUsd = some (ImpactLevel.critical,
      "Giá trị tiền tệ thay đổi (USD)",
      "Sai lệch giá trị tiền tệ - có thể ảnh hưởng tài chính") ∧
    scanPatterns "$100".data = some (ImpactLevel.critical,
      (CRITICAL_PATTERNS.getD 1 dummyPat).2, riskFor (CRITICAL_PATTERNS.getD 1 dummyPat).2) :=
  ⟨c5_priority_usd.1 sampleUsd (by decide),
   c5_priority_usd.2 "$100".data 1 (by decide) (by decide)⟩

/-! ### C4 -/

theorem smRatio_ab_bc : smRatio blockAb.content.data blockBc.content.data = 1/2 := by
  have h1 : (((get_matching_blocks blockAb.content.data blockBc.content.data).map
      (fun t => t.2.2)).sum : Nat) = 1 := by decide
  have h2 : blockAb.content.data.length = 2 := by decide
  have h3 : blockBc.content.data.length = 2 := by decide
  unfold smRatio
  rw [h1, h2, h3]
  norm_num

theorem smRatio_ab_az : smRatio blockAb.content.data blockAz.content.data = 1/3 := by
  have h1 : (((get_matching_blocks blockAb.content.data blockAz.content.data).map
      (fun t => t.2.2)).sum : Nat) = 1 := by decide
  have h2 : blockAb.content.data.length = 2 := by decide
  have h3 : blockAz.content.data.length = 4 := by decide
  unfold smRatio
  rw [h1, h2, h3]
  norm_num

theorem bestCand_ab_bc : bestCand [] [blockBc] blockAb.content = (some (0, blockBc), 1/2) := by
  unfold bestCand
  simp [List.enum, List.enumFrom, smRatio_ab_bc]

theorem bestCand_ab_az : bestCand [] [blockAz] blockAb.content = (some (0, blockAz), 1/3) := by
  unfold bestCand
  simp [List.enum, List.enumFrom, smRatio_ab_az]

/-- C4: in intra-replace matching, for a v1 unit whose best similarity
against the still-unconsumed v2 units is exactly 0.5, the per-unit step
emits a `modified` match with that similarity set and consumes the v2 unit;
for a best similarity strictly below 0.5 it emits `deleted` and consumes
nothing; every v2 unit left unconsumed at the end becomes an `added` entry
of the run's result; and the conversion to `Edit` records preserves the
`modified` kind and the similarity value. -/
theorem c4_similarity_threshold :
    (∀ (v2 : List ContentBlock) (used : List Nat) (acc : List MatchItem)
        (b1 : ContentBlock) (idx : Nat) (b2 : ContentBlock) (bs : ℚ),
      bestCand used v2 b1.content = (some (idx, b2), bs) →
      ((bs = 1/2 → msbStep v2 (acc, used) b1 =
          (acc ++ [MatchItem.modified b1 b2 bs (get_word_level_diff b1.content b2.content).1
            (get_word_level_diff b1.content b2.content).2], idx :: used)) ∧
       (bs < 1/2 → msbStep v2 (acc, used) b1 = (acc ++ [delItem b1], used)))) ∧
    (∀ (v1 v2 : List ContentBlock) (jdx : Nat) (b2 : ContentBlock),
      v2[jdx]? = some b2 → jdx ∉ (v1.foldl (msbStep v2) ([], [])).2 →
      addItem b2 ∈ match_similar_blocks v1 v2) ∧
    (∀ (cid : Nat) (b1 b2 : ContentBlock) (s : ℚ) (dt : String) (w : List WordChange),
      (itemToChange cid (MatchItem.modified b1 b2 s dt w)).change_type =
        ChangeType.modified ∧
      (itemToChange cid (MatchItem.modified b1 b2 s dt w)).similarity = some s) := by
  refine ⟨?_, ?_, ?_⟩
  · intro v2 used acc b1 idx b2 bs hbc
    constructor
    · intro hbs
      unfold msbStep
      dsimp only
      rw [hbc]
      dsimp only
      rw [if_pos (by rw [hbs])]
    · intro hbs
      unfold msbStep
      dsimp only
      rw [hbc]
      dsimp only
      rw [if_neg (not_le.mpr hbs)]
  · intro v1 v2 jdx b2 hget hnotin
    unfold match_similar_blocks
    refine List.mem_append_right _ ?_
    rw [List.mem_filterMap]
    refine ⟨(jdx, b2), List.mem_enum_iff_getElem?.mpr hget, ?_⟩
    dsimp only
    rw [if_neg hnotin]
  · intro cid b1 b2 s dt w
    exact ⟨rfl, rfl⟩

/-- Witness for `c4_similarity_threshold`: `"ab"` vs `["bc"]` has best
similarity exactly 1/2 and is matched as modified; `"ab"` vs `["azzz"]` has
best similarity 1/3 < 1/2 and is deleted; the lone unconsumed v2 unit of an
empty-v1 run becomes an addition. -/
theorem c4_similarity_threshold_witness :
    msbStep [blockBc] ([], []) blockAb =
      ([MatchItem.modified blockAb blockBc (1/2)
        (get_word_level_diff blockAb.content blockBc.content).1
        (get_word_level_diff blockAb.content blockBc.content).2], [0]) ∧
    msbStep [blockAz] ([], []) blockAb = ([delItem blockAb], []) ∧
    addItem blockBc ∈ match_similar_blocks [] [blockBc] ∧
    (itemToChange 9 (MatchItem.modified blockAb blockBc (1/2) "d" [])).similarity =
      some (1/2) := by
  refine ⟨?_, ?_, ?_, ?_⟩
  · simpa using
      (c4_similarity_threshold.1 [blockBc] [] [] blockAb 0 blockBc (1/2) bestCand_ab_bc).1 rfl
  · simpa using
      (c4_similarity_threshold.1 [blockAz] [] [] blockAb 0 blockAz (1/3) bestCand_ab_az).2
        (by norm_num)
  · exact c4_similarity_threshold.2.1 [] [blockBc] 0 blockBc rfl (by simp)
  · exact (c4_similarity_threshold.2.2 9 blockAb blockBc (1/2) "d" []).2

/-! ### C9 -/

theorem mem_enum_fst_lt {l : List ContentBlock} {p : Nat × ContentBlock}
    (h : p ∈ l.enum) : p.1 < l.length := by
  have h2 := List.mem_enum_iff_getElem?.mp h
  exact (List.getElem?_eq_some.mp h2).1

/-- The candidate returned by `bestCand` is an unconsumed index into the v2
list. -/
theorem bestCand_inv (used : List Nat) (v2 : List ContentBlock) (c1 : String) :
    ∀ (idx : Nat) (b2 : ContentBlock) (bs : ℚ),
      bestCand used v2 c1 = (some (idx, b2), bs) → idx ∉ used ∧ idx < v2.length := by
  suffices h : ∀ (l : List (Nat × ContentBlock)) (st : Option (Nat × ContentBlock) × ℚ),
      (∀ p ∈ l, p.1 < v2.length) →
      (∀ (idx : Nat) (b2 : ContentBlock) (bs : ℚ),
        st = (some (idx, b2), bs) → idx ∉ used ∧ idx < v2.length) →
      ∀ (idx : Nat) (b2 : ContentBlock) (bs : ℚ),
        l.foldl
          (fun st p =>
            if p.1 ∈ used then st
            else if st.2 < smRatio c1.data p.2.content.data then
              (some p, smRatio c1.data p.2.content.data)
            else st) st = (some (idx, b2), bs) →
        idx ∉ used ∧ idx < v2.length by
    intro idx b2 bs heq
    exact h v2.enum (none, 0) (fun p hp => mem_enum_fst_lt hp)
      (by intro idx b2 bs h0; simp at h0) idx b2 bs heq
  intro l
  induction l with
  | nil => intro st _ hst idx b2 bs h; exact hst idx b2 bs h
  | cons p ps ih =>
    intro st hb hst idx b2 bs h
    rw [List.foldl_cons] at h
    refine ih _ (fun q hq => hb q (List.mem_cons_of_mem _ hq)) ?_ idx b2 bs h
    intro idx' b2' bs' heq
    by_cases hpu : p.1 ∈ used
    · rw [if_pos hpu] at heq
      exact hst _ _ _ heq
    · rw [if_neg hpu] at heq
      by_cases hcmp : st.2 < smRatio c1.data p.2.content.data
      · rw [if_pos hcmp] at heq
        have h2 : p = (idx', b2') := Option.some.inj (congrArg Prod.fst heq)
        have h3 : p.1 = idx' := congrArg Prod.fst h2
        rw [← h3]
        exact ⟨hpu, hb p (List.mem_cons_self _ _)⟩
      · rw [if_neg hcmp] at heq
        exact hst _ _ _ heq

/-- Invariant of the `_match_similar_blocks` main loop: the number of
modified entries equals the number of consumed v2 indices, which are
distinct, in range, and grow by at most one per v1 unit. -/
theorem msb_fold_inv (v2 : List ContentBlock) :
    ∀ (l : List ContentBlock) (st : List MatchItem × List Nat),
      st.1.countP isModifiedItem = st.2.length →
      st.2.Nodup →
      (∀ x ∈ st.2, x < v2.length) →
      (l.foldl (msbStep v2) st).1.countP isModifiedItem =
          (l.foldl (msbStep v2) st).2.length ∧
        (l.foldl (msbStep v2) st).2.Nodup ∧
        (∀ x ∈ (l.foldl (msbStep v2) st).2, x < v2.length) ∧
        (l.foldl (msbStep v2) st).2.length ≤ st.2.length + l.length := by
  intro l
  induction l with
  | nil => intro st h1 h2 h3; exact ⟨h1, h2, h3, by simp⟩
  | cons b1 bs ih =>
    intro st h1 h2 h3
    rw [List.foldl_cons]
    rcases hbc : bestCand st.2 v2 b1.content with ⟨bm, bsim⟩
    cases bm with
    | none =>
      have hstep : msbStep v2 st b1 = (st.1 ++ [delItem b1], st.2) := by
        unfold msbStep
        rw [hbc]
      rw [hstep]
      have hcnt : (st.1 ++ [delItem b1]).countP isModifiedItem = st.2.length := by
        simp [List.countP_append, isModifiedItem, delItem, h1]
      obtain ⟨g1, g2, g3, g4⟩ := ih (st.1 ++ [delItem b1], st.2) hcnt h2 h3
      exact ⟨g1, g2, g3, by simp only [List.length_cons] at g4 ⊢; omega⟩
    | some pr =>
      obtain ⟨idx, b2⟩ := pr
      obtain ⟨hnu, hlt⟩ := bestCand_inv st.2 v2 b1.content idx b2 bsim hbc
      by_cases hth : (1 : ℚ)/2 ≤ bsim
      · have hstep : msbStep v2 st b1 =
            (st.1 ++ [MatchItem.modified b1 b2 bsim
              (get_word_level_diff b1.content b2.content).1
              (get_word_level_diff b1.content b2.content).2], idx :: st.2) := by
          unfold msbStep
          rw [hbc]
          dsimp only
          rw [if_pos hth]
        rw [hstep]
        have hcnt : (st.1 ++ [MatchItem.modified b1 b2 bsim
            (get_word_level_diff b1.content b2.content).1
            (get_word_level_diff b1.content b2.content).2]).countP isModifiedItem =
            (idx :: st.2).length := by
          simp [List.countP_append, isModifiedItem, h1]
        have hnd : (idx :: st.2).Nodup := List.nodup_cons.mpr ⟨hnu, h2⟩
        have hbd : ∀ x ∈ idx :: st.2, x < v2.length := by
          intro x hx
          rcases List.mem_cons.mp hx with hx | hx
          · subst hx; exact hlt
          · exact h3 x hx
        obtain ⟨g1, g2, g3, g4⟩ := ih (st.1 ++ [MatchItem.modified b1 b2 bsim
          (get_word_level_diff b1.content b2.content).1
          (get_word_level_diff b1.content b2.content).2], idx :: st.2) hcnt hnd hbd
        exact ⟨g1, g2, g3, by simp only [List.length_cons] at g4 ⊢; omega⟩
      · have hstep : msbStep v2 st b1 = (st.1 ++ [delItem b1], st.2) := by
          unfold msbStep
          rw [hbc]
          dsimp only
          rw [if_neg hth]
        rw [hstep]
        have hcnt : (st.1 ++ [delItem b1]).countP isModifiedItem = st.2.length := by
          simp [List.countP_append, isModifiedItem, delItem, h1]
        obtain ⟨g1, g2, g3, g4⟩ := ih (st.1 ++ [delItem b1], st.2) hcnt h2 h3
        exact ⟨g1, g2, g3, by simp only [List.length_cons] at g4 ⊢; omega⟩

theorem countP_zipWith_itemToChange :
    ∀ (ids : List Nat) (items : List MatchItem), items.length = ids.length →
      (List.zipWith itemToChange ids items).countP
        (fun c => c.change_type == ChangeType.modified) = items.countP isModifiedItem := by
  intro ids
  induction ids with
  | nil =>
    intro items h
    cases items with
    | nil => rfl
    | cons it its => simp at h
  | cons a ids ih =>
    intro items h
    cases items with
    | nil => simp at h
    | cons it its =>
      simp only [List.zipWith_cons_cons, List.countP_cons]
      rw [ih its (by simpa using h)]
      congr 1
      cases it <;> rfl

/-- C9: for every replace run, the number of modified results never exceeds
the number of v1 units or the number of v2 units of the run — each modified
pairing consumes one v1 unit and one distinct v2 unit — both at the level of
the `_match_similar_blocks` result and of the `Edit` records the replace
branch of the aligner emits for a run spanning `[i1, i2)` × `[j1, j2)`. -/
theorem c9_modified_bound :
    (∀ v1 v2 : List ContentBlock,
      (match_similar_blocks v1 v2).countP isModifiedItem ≤ min v1.length v2.length) ∧
    (∀ (b1s b2s : List ContentBlock) (cid i1 i2 j1 j2 : Nat),
      (opChanges b1s b2s cid (Tag.replace, i1, i2, j1, j2)).countP
        (fun c => c.change_type == ChangeType.modified) ≤ min (i2 - i1) (j2 - j1)) := by
  have main : ∀ v1 v2 : List ContentBlock,
      (match_similar_blocks v1 v2).countP isModifiedItem ≤ min v1.length v2.length := by
    intro v1 v2
    obtain ⟨g1, g2, g3, g4⟩ := msb_fold_inv v2 v1 ([], []) rfl List.nodup_nil
      (by intro x hx; cases hx)
    simp only [List.length_nil, Nat.zero_add] at g4
    unfold match_similar_blocks
    rw [List.countP_append]
    have hadds : (v2.enum.filterMap
        (fun p => if p.1 ∈ (v1.foldl (msbStep v2) ([], [])).2 then none
          else some (addItem p.2))).countP isModifiedItem = 0 := by
      rw [List.countP_eq_zero]
      intro x hx
      obtain ⟨p, _, hp⟩ := List.mem_filterMap.mp hx
      by_cases hin : p.1 ∈ (v1.foldl (msbStep v2) ([], [])).2
      · rw [if_pos hin] at hp; cases hp
      · rw [if_neg hin] at hp
        have hx2 : x = addItem p.2 := (Option.some.inj hp).symm
        subst hx2
        simp [addItem, isModifiedItem]
    rw [hadds]
    have hsub : (v1.foldl (msbStep v2) ([], [])).2 ⊆ List.range v2.length := by
      intro x hx
      exact List.mem_range.mpr (g3 x hx)
    have hle2 : (v1.foldl (msbStep v2) ([], [])).2.length ≤ v2.length := by
      have := (List.subperm_of_subset g2 hsub).length_le
      simpa using this
    refine le_min ?_ ?_
    · omega
    · omega
  refine ⟨main, ?_⟩
  intro b1s b2s cid i1 i2 j1 j2
  have hz := countP_zipWith_itemToChange
    (List.range' cid (match_similar_blocks
      ((List.range' i1 (i2 - i1)).map (fun i => b1s.getD i default))
      ((List.range' j1 (j2 - j1)).map (fun j => b2s.getD j default))).length)
    (match_similar_blocks
      ((List.range' i1 (i2 - i1)).map (fun i => b1s.getD i default))
      ((List.range' j1 (j2 - j1)).map (fun j => b2s.getD j default)))
    (by simp [List.length_range'])
  unfold opChanges
  rw [hz]
  have hm := main ((List.range' i1 (i2 - i1)).map (fun i => b1s.getD i default))
    ((List.range' j1 (j2 - j1)).map (fun j => b2s.getD j default))
  simpa [List.length_map, List.length_range'] using hm

/-! ### C8

`diff_documents U U = []` reduces to `find_longest_match` returning the full
window on equal inputs.  The key fact is that, on `a` vs `a`, every
best-match update of the main loop happens on the diagonal (`j = i`): the
values of the `j2len` rows are the `rowVal` table below, bounded by the
length `NPRa` of the current run of non-purged elements, and the diagonal
cell attains that bound first (rows ascend, and within a row the ascending
position list meets the diagonal before any larger column).  A diagonal best
then extends to the full window because the extension loops compare equal
elements of `a` with themselves. -/

section DiffSelf

variable {α : Type} [DecidableEq α] [Inhabited α]

theorem mem_b2jGet {a : List α} {x : α} {j : Nat} (h : j ∈ b2jGet a x) :
    j < a.length ∧ a.getD j default = x := by
  unfold b2jGet at h
  split at h
  · cases h
  · unfold positions at h
    obtain ⟨h1, h2⟩ := List.mem_filter.mp h
    exact ⟨List.mem_range.mp h1, of_decide_eq_true h2⟩

theorem self_mem_b2jGet {a : List α} {i j : Nat}
    (h : j ∈ b2jGet a (a.getD i default)) (hi : i < a.length) :
    i ∈ b2jGet a (a.getD i default) := by
  unfold b2jGet at h ⊢
  split at h
  · cases h
  · rename_i hpop
    rw [if_neg hpop]
    unfold positions
    exact List.mem_filter.mpr ⟨List.mem_range.mpr hi, by simp⟩

theorem pairwise_b2jGet (a : List α) (x : α) :
    List.Pairwise (fun u v => u < v) (b2jGet a x) := by
  unfold b2jGet
  split
  · exact List.Pairwise.nil
  · exact (List.pairwise_lt_range _).filter _

/-- Length of the maximal run of self-indexable (non-purged) positions
ending at `r`, on `a` vs `a`. -/
def NPRa (a : List α) : Nat → Nat
  | 0 => if 0 ∈ b2jGet a (a.getD 0 default) then 1 else 0
  | r + 1 => if r + 1 ∈ b2jGet a (a.getD (r + 1) default) then NPRa a r + 1 else 0

/-- The value `newj2len[j]` holds at the end of row `i` of the main loop on
`a` vs `a` (0 at positions the loop never writes). -/
def rowVal (a : List α) : Nat → Nat → Nat
  | 0, j => if j ∈ b2jGet a (a.getD 0 default) then 1 else 0
  | i + 1, 0 => if 0 ∈ b2jGet a (a.getD (i + 1) default) then 1 else 0
  | i + 1, j + 1 =>
    if j + 1 ∈ b2jGet a (a.getD (i + 1) default) then rowVal a i j + 1 else 0

theorem rowVal_of_not_mem {a : List α} {i j : Nat}
    (h : j ∉ b2jGet a (a.getD i default)) : rowVal a i j = 0 := by
  rcases i with _ | i <;> rcases j with _ | j <;> simp only [rowVal, if_neg h]

theorem rowVal_self_eq (a : List α) : ∀ i, rowVal a i i = NPRa a i := by
  intro i
  induction i with
  | zero => rfl
  | succ i ih => simp only [rowVal, NPRa, ih]

theorem NPRa_le (a : List α) : ∀ r, NPRa a r ≤ r + 1 := by
  intro r
  induction r with
  | zero => unfold NPRa; split <;> omega
  | succ r ih => unfold NPRa; split <;> omega

theorem NPRa_pos {a : List α} {r : Nat} (h : r ∈ b2jGet a (a.getD r default)) :
    1 ≤ NPRa a r := by
  rcases r with _ | r <;> simp only [NPRa, if_pos h] <;> omega

theorem rowVal_le_NPR_row (a : List α) :
    ∀ i j, i < a.length → rowVal a i j ≤ NPRa a i := by
  intro i
  induction i with
  | zero =>
    intro j h0
    by_cases hm : j ∈ b2jGet a (a.getD 0 default)
    · have hself := self_mem_b2jGet hm h0
      simp only [rowVal, NPRa, if_pos hm, if_pos hself]
      omega
    · simp only [rowVal, if_neg hm]
      omega
  | succ i ih =>
    intro j hi
    rcases j with _ | j
    · by_cases hm : 0 ∈ b2jGet a (a.getD (i + 1) default)
      · have hself := self_mem_b2jGet hm hi
        simp only [rowVal, NPRa, if_pos hm, if_pos hself]
        omega
      · simp only [rowVal, if_neg hm]
        omega
    · by_cases hm : j + 1 ∈ b2jGet a (a.getD (i + 1) default)
      · have hself := self_mem_b2jGet hm hi
        have hih := ih j (by omega)
        simp only [rowVal, NPRa, if_pos hm, if_pos hself]
        omega
      · simp only [rowVal, if_neg hm]
        omega

theorem rowVal_le_NPR_col (a : List α) : ∀ i j, rowVal a i j ≤ NPRa a j := by
  intro i
  induction i with
  | zero =>
    intro j
    by_cases hm : j ∈ b2jGet a (a.getD 0 default)
    · obtain ⟨hj, heq⟩ := mem_b2jGet hm
      have hselfj : j ∈ b2jGet a (a.getD j default) := by rw [heq]; exact hm
      have := NPRa_pos hselfj
      simp only [rowVal, if_pos hm]
      omega
    · simp only [rowVal, if_neg hm]
      omega
  | succ i ih =>
    intro j
    rcases j with _ | j
    · by_cases hm : 0 ∈ b2jGet a (a.getD (i + 1) default)
      · obtain ⟨hj, heq⟩ := mem_b2jGet hm
        have hselfj : 0 ∈ b2jGet a (a.getD 0 default) := by rw [heq]; exact hm
        have := NPRa_pos hselfj
        simp only [rowVal, if_pos hm]
        omega
      · simp only [rowVal, if_neg hm]
        omega
    · by_cases hm : j + 1 ∈ b2jGet a (a.getD (i + 1) default)
      · obtain ⟨hj, heq⟩ := mem_b2jGet hm
        have hselfj : j + 1 ∈ b2jGet a (a.getD (j + 1) default) := by rw [heq]; exact hm
        have hih := ih j
        simp only [rowVal, NPRa, if_pos hm, if_pos hselfj]
        omega
      · simp only [rowVal, if_neg hm]
        omega

/-- The `j2` row carried into the iteration for row `i`: all zeros for the
first row, the previous row's values afterwards. -/
def prevRow (a : List α) (i x : Nat) : Nat :=
  match i with
  | 0 => 0
  | i' + 1 => rowVal a i' x

theorem flmK_eq_rowVal (a : List α) (i j : Nat) (j2 : Nat → Nat)
    (hj2 : ∀ x, j2 x = prevRow a i x)
    (hm : j ∈ b2jGet a (a.getD i default)) :
    flmK j j2 = rowVal a i j := by
  unfold flmK
  rcases i with _ | i <;> rcases j with _ | j
  · simp only [rowVal, if_pos hm, if_true]
  · rw [if_neg (Nat.succ_ne_zero j), hj2]
    simp only [prevRow, rowVal, if_pos hm]
  · simp only [rowVal, if_pos hm, if_true]
  · rw [if_neg (Nat.succ_ne_zero j), hj2]
    simp only [prevRow, Nat.add_sub_cancel, rowVal, if_pos hm]

/-- Invariant of the main loop on `a` vs `a`: the best match is diagonal,
fits in the window, and dominates the runs of all fully processed rows (and
of the current row once its diagonal cell has been processed). -/
def DiagInv (a : List α) (i : Nat) (pre : List Nat) (best : Nat × Nat × Nat) : Prop :=
  best.1 = best.2.1 ∧ best.1 + best.2.2 ≤ a.length ∧
    (∀ r, r < i → NPRa a r ≤ best.2.2) ∧ (i ∈ pre → NPRa a i ≤ best.2.2)

theorem flmInner_diag (a : List α) (i : Nat) (hi : i < a.length) :
    ∀ (js pre : List Nat) (best : Nat × Nat × Nat) (j2 nj2 : Nat → Nat),
    b2jGet a (a.getD i default) = pre ++ js →
    (∀ x, j2 x = prevRow a i x) →
    (∀ x ∈ pre, nj2 x = rowVal a i x) →
    (∀ x, x ∉ pre → nj2 x = 0) →
    DiagInv a i pre best →
    DiagInv a i (pre ++ js) (flmInner 0 a.length i js best j2 nj2).1 ∧
    (∀ x ∈ pre ++ js, (flmInner 0 a.length i js best j2 nj2).2 x = rowVal a i x) ∧
    (∀ x, x ∉ pre ++ js → (flmInner 0 a.length i js best j2 nj2).2 x = 0) := by
  intro js
  induction js with
  | nil =>
    intro pre best j2 nj2 hsplit hj2 hnj2a hnj2b hinv
    simp only [flmInner, List.append_nil]
    exact ⟨hinv, hnj2a, hnj2b⟩
  | cons j rest ih =>
    intro pre best j2 nj2 hsplit hj2 hnj2a hnj2b hinv
    have hjL : j ∈ b2jGet a (a.getD i default) := by
      rw [hsplit]
      exact List.mem_append_right _ (List.mem_cons_self _ _)
    obtain ⟨hjn, hjeq⟩ := mem_b2jGet hjL
    have hpw : List.Pairwise (fun u v => u < v) (pre ++ j :: rest) := by
      rw [← hsplit]
      exact pairwise_b2jGet a _
    have hpre_lt : ∀ x ∈ pre, x < j := by
      intro x hx
      exact (List.pairwise_append.mp hpw).2.2 x hx j (List.mem_cons_self _ _)
    have hrest_gt : ∀ x ∈ rest, j < x := by
      intro x hx
      exact (List.pairwise_cons.mp (List.pairwise_append.mp hpw).2.1).1 x hx
    have hk : flmK j j2 = rowVal a i j := flmK_eq_rowVal a i j j2 hj2 hjL
    have hred : flmInner 0 a.length i (j :: rest) best j2 nj2 =
        flmInner 0 a.length i rest (flmUpd i j (flmK j j2) best) j2
          (flmSet j (flmK j j2) nj2) := by
      rw [flmInner, if_neg (Nat.not_lt_zero j), if_neg (by omega)]
    rw [hred]
    have hnj2a' : ∀ x ∈ pre ++ [j], flmSet j (flmK j j2) nj2 x = rowVal a i x := by
      intro x hx
      rcases List.mem_append.mp hx with hx | hx
      · have hxj : x ≠ j := by have := hpre_lt x hx; omega
        unfold flmSet
        rw [if_neg hxj]
        exact hnj2a x hx
      · have hxj : x = j := by simpa using hx
        subst hxj
        unfold flmSet
        rw [if_pos rfl, hk]
    have hnj2b' : ∀ x, x ∉ pre ++ [j] → flmSet j (flmK j j2) nj2 x = 0 := by
      intro x hx
      have hx1 : x ∉ pre := fun h => hx (List.mem_append_left _ h)
      have hx2 : x ≠ j := fun h => hx (List.mem_append_right _ (by simp [h]))
      unfold flmSet
      rw [if_neg hx2]
      exact hnj2b x hx1
    have hinv' : DiagInv a i (pre ++ [j]) (flmUpd i j (flmK j j2) best) := by
      obtain ⟨hd, hb, hall, hcur⟩ := hinv
      by_cases hij : j = i
      · subst hij
        have hkv : flmK j j2 = NPRa a j := by rw [hk, rowVal_self_eq]
        have hkle : flmK j j2 ≤ j + 1 := by
          rw [hkv]
          exact NPRa_le a j
        unfold flmUpd
        split
        · rename_i hup
          refine ⟨rfl, by dsimp only; omega, ?_, ?_⟩
          · intro r hr
            have := hall r hr
            dsimp only
            omega
          · intro _
            dsimp only
            omega
        · rename_i hup
          refine ⟨hd, hb, hall, ?_⟩
          intro _
          omega
      · have hkle : flmK j j2 ≤ best.2.2 := by
          rcases Nat.lt_or_ge j i with hji | hji
          · have h1 := rowVal_le_NPR_col a i j
            have h2 := hall j hji
            omega
          · have hji' : i < j := by omega
            have hiL : i ∈ b2jGet a (a.getD i default) := self_mem_b2jGet hjL hi
            rw [hsplit] at hiL
            have hipre : i ∈ pre := by
              rcases List.mem_append.mp hiL with h | h
              · exact h
              · exfalso
                rcases List.mem_cons.mp h with h | h
                · omega
                · have := hrest_gt i h
                  omega
            have h1 := rowVal_le_NPR_row a i j hi
            have h2 := hcur hipre
            omega
        unfold flmUpd
        rw [if_neg (by omega)]
        refine ⟨hd, hb, hall, ?_⟩
        intro hmem
        rcases List.mem_append.mp hmem with h | h
        · exact hcur h
        · have hij2 : i = j := by simpa using h
          omega
    have hmain := ih (pre ++ [j]) (flmUpd i j (flmK j j2) best) j2
      (flmSet j (flmK j j2) nj2)
      (by rw [hsplit, List.append_assoc, List.singleton_append]) hj2 hnj2a' hnj2b' hinv'
    rwa [List.append_assoc, List.singleton_append] at hmain

theorem flmRows_diag (a : List α) :
    ∀ (cnt i : Nat), i + cnt = a.length →
    ∀ (best : Nat × Nat × Nat) (j2 : Nat → Nat),
    (∀ x, j2 x = prevRow a i x) →
    DiagInv a i [] best →
    (flmRows a a 0 a.length (List.range' i cnt) best j2).1 =
      (flmRows a a 0 a.length (List.range' i cnt) best j2).2.1 ∧
    (flmRows a a 0 a.length (List.range' i cnt) best j2).1 +
      (flmRows a a 0 a.length (List.range' i cnt) best j2).2.2 ≤ a.length := by
  intro cnt
  induction cnt with
  | zero =>
    intro i hi best j2 hj2 hinv
    simp only [List.range'_zero, flmRows]
    exact ⟨hinv.1, hinv.2.1⟩
  | succ m ih =>
    intro i hi best j2 hj2 hinv
    rw [List.range'_succ]
    simp only [flmRows]
    have hlt : i < a.length := by omega
    have h := flmInner_diag a i hlt (b2jGet a (a.getD i default)) [] best j2 (fun _ => 0)
      (by simp) hj2 (by intro x hx; cases hx) (fun x _ => rfl) hinv
    obtain ⟨⟨hd, hb, hall, hcur⟩, hval, hzero⟩ := h
    refine ih (i + 1) (by omega) _ _ ?_ ?_
    · intro x
      by_cases hx : x ∈ ([] : List Nat) ++ b2jGet a (a.getD i default)
      · exact hval x hx
      · rw [hzero x hx]
        have hx2 : x ∉ b2jGet a (a.getD i default) := by simpa using hx
        exact (rowVal_of_not_mem hx2).symm
    · refine ⟨hd, hb, ?_, ?_⟩
      · intro r hr
        rcases Nat.lt_or_ge r i with h2 | h2
        · exact hall r h2
        · have hri : r = i := by omega
          subst hri
          by_cases hm : r ∈ b2jGet a (a.getD r default)
          · exact hcur (by simpa using hm)
          · have h3 : NPRa a r = 0 := by
              rcases r with _ | r <;> simp only [NPRa, if_neg hm]
            omega
      · intro h2
        cases h2

theorem extendBack_diag (a : List α) : ∀ (d k : Nat),
    extendBack a a 0 0 d d k = (0, 0, d + k) := by
  intro d
  induction d with
  | zero => intro k; simp [extendBack]
  | succ d ih =>
    intro k
    rw [extendBack, if_pos ⟨Nat.succ_pos d, Nat.succ_pos d, rfl⟩]
    have harith : d + 1 - 1 = d := rfl
    rw [harith, ih (k + 1)]
    have harith2 : d + (k + 1) = d + 1 + k := by omega
    rw [harith2]

theorem extendFwdLenAux_diag (a : List α) : ∀ (f s : Nat), s + f = a.length →
    extendFwdLenAux a a a.length a.length 0 0 f s = a.length := by
  intro f
  induction f with
  | zero =>
    intro s h
    simp only [extendFwdLenAux]
    omega
  | succ m ih =>
    intro s h
    rw [extendFwdLenAux, if_pos ⟨by omega, by omega, rfl⟩]
    exact ih (s + 1) (by omega)

/-- `find_longest_match` on `a` vs `a` over the full window returns the full
match. -/
theorem flm_self (a : List α) :
    find_longest_match a a 0 a.length 0 a.length = (0, 0, a.length) := by
  unfold find_longest_match flmExtend
  rw [Nat.sub_zero]
  have hrows := flmRows_diag a a.length 0 (by omega) (0, 0, 0) (fun _ => 0)
    (fun x => rfl) ⟨rfl, by simp, by omega, by intro h; cases h⟩
  obtain ⟨hd, hb⟩ := hrows
  rw [← hd, extendBack_diag a _ _]
  dsimp only
  unfold extendFwdLen
  rw [extendFwdLenAux_diag a _ _ (by omega)]

theorem gmbQueue_self (a : List α) :
    gmbQueue a a [(0, a.length, 0, a.length)] =
      if a.length = 0 then [] else [(0, 0, a.length)] := by
  unfold gmbQueue
  simp only [List.map_cons, List.map_nil, List.sum_cons, List.sum_nil, qsize,
    Nat.sub_zero, Nat.add_zero]
  by_cases h : a.length = 0
  · have hf := flm_self a
    rw [h] at hf
    simp [gmbQueueAux, hf, h]
  · simp [gmbQueueAux, flm_self, h]

theorem gmb_self (a : List α) :
    get_matching_blocks a a =
      (if a.length = 0 then [] else [(0, 0, a.length)]) ++
        [(a.length, a.length, 0)] := by
  unfold get_matching_blocks
  rw [gmbQueue_self]
  by_cases h : a.length = 0
  · rw [if_pos h]
    rfl
  · rw [if_neg h]
    have h1 : lexSort [(0, 0, a.length)] = [(0, 0, a.length)] := rfl
    rw [h1, mergeAdj, if_pos ⟨rfl, rfl⟩, mergeAdj,
      if_neg (show ¬ (0 + a.length = 0) by omega), Nat.zero_add]

theorem get_opcodes_self (a : List α) :
    get_opcodes a a =
      if a.length = 0 then [] else [(Tag.equal, 0, a.length, 0, a.length)] := by
  unfold get_opcodes
  rw [gmb_self]
  by_cases h : a.length = 0
  · rw [if_pos h]
    simp [opcodesAux, h]
  · rw [if_neg h]
    simp [opcodesAux, h]

end DiffSelf

/-- C8: for every unit (block) list `U`, aligning `U` against itself produces
the empty edit list: `diff_documents U U = []`. -/
theorem c8_align_self (U : List ContentBlock) : diff_documents U U = [] := by
  unfold diff_documents
  rw [get_opcodes_self]
  by_cases h : (U.map (fun bl => bl.content)).length = 0
  · rw [if_pos h]
    rfl
  · rw [if_neg h]
    rfl

end DocTracker
